import Mathlib

/-!
Verification of the strategem response-parsing and claim-validation core.

This file gives a shallow embedding, in Lean 4, of the analytical core of the
`strategem` repository:

* the V1 data model (`src/strategem/v1/models/{core,enums,output}.py`),
* the orchestrator's claim validator, framework-sufficiency evaluator and
  analysis-sufficiency aggregator (`src/strategem/orchestrator.py`),
* the retry controller and the response-extraction pipeline of the LLM layer
  (`src/strategem/core/llm.py`, mirrored in `src/strategem/llm_layer.py`):
  fenced/embedded JSON extraction, brace-matched JSON scan, key-casing
  normalization and the custom indentation-based YAML-like fallback,

and proves or refutes the specification's claims about them.

Conventions of the embedding:

* Python strings are modelled as `String` / `List Char`; machine text scanning
  is done on `List Char`.
* Python dicts are modelled as association lists built with an
  insert-or-overwrite operation (`assignKey`) that mirrors Python dict
  assignment: an existing key keeps its position and gets the new value, a new
  key is appended.  Python dict iteration order is insertion order, which the
  association list preserves.
* Python exceptions are modelled with `Option`/`Except`; a function that can
  raise returns `none`/`.error`.
* JSON numbers are modelled as integers (`Int`); none of the repository's
  parsing paths that the claims quantify over depends on float payloads.
* Loops with computed index jumps are modelled with an explicit fuel argument
  equal to the number of lines/characters; every such loop consumes at least
  one element per iteration in the source, so this fuel is exact and the
  zero-fuel branch is unreachable from the public entry points.
-/

set_option maxRecDepth 4000
set_option maxHeartbeats 2000000

namespace Strategem

/-! ## V1 data model (src/strategem/v1/models/enums.py, core.py, output.py) -/

/-- Enum `ClaimSource` from `v1/models/enums.py`. -/
inductive ClaimSource
  | input
  | assumption
  | inference
deriving DecidableEq

/-- Enum `ConfidenceLevel` from `v1/models/enums.py`. -/
inductive ConfidenceLevel
  | low
  | medium
  | high
deriving DecidableEq

/-- Enum `FrameworkExecutionStatus` from `v1/models/enums.py`. -/
inductive FrameworkExecutionStatus
  | successful
  | insufficient
  | failed
deriving DecidableEq

/-- Enum `DecisionBindingStatus` from `v1/models/enums.py`. -/
inductive DecisionBindingStatus
  | decision_context_present
  | genuinely_ambiguous
deriving DecidableEq

/-- Enum `CoverageStatus` from `v1/models/enums.py`.  The source value
`PARTIAL = "partial"` is written `partialC` here because its source spelling is
a reserved word in Lean. -/
inductive CoverageStatus
  | complete
  | partialC
  | not_applicable
deriving DecidableEq

/-- Enum `AnalysisSufficiencyStatus` from `v1/models/enums.py`. -/
inductive AnalysisSufficiencyStatus
  | decision_relevant_reasoning_produced
  | decision_relevant_but_constrained
  | exploratory_pre_decision
deriving DecidableEq

/-- Model `DecisionFocus` from `v1/models/core.py` (lines 8-27).  Note that the
pydantic model places no length constraint on `options`: any list, including an
empty or one-element list, is accepted at construction. -/
structure DecisionFocus where
  decision_question : String
  decision_type : String
  options : List String
deriving DecidableEq

/-- Model `ProvidedMaterial` from `v1/models/core.py`. -/
structure ProvidedMaterial where
  material_type : String
  content : String
  source : Option String
deriving DecidableEq

/-- Model `AnalyticalClaim` from `v1/models/core.py`.  `claim_type` is a plain
string in the source (default `"system_level"`), compared against the string
values of the `ClaimType` enum by the orchestrator. -/
structure AnalyticalClaim where
  statement : String
  source : ClaimSource
  confidence : ConfidenceLevel
  framework : Option String
  claim_type : String
  applicable_options : List String
  affected_options : List String
deriving DecidableEq

/-- Model `ProblemContext` from `v1/models/core.py`. -/
structure ProblemContext where
  title : String
  problem_statement : String
  objectives : List String
  constraints : List String
  provided_materials : List ProvidedMaterial
  declared_assumptions : List String
  decision_focus : Option DecisionFocus
  raw_content : Option String
  structured_content : Option String
  source_type : String
deriving DecidableEq

/-- Model `FrameworkResult` from `v1/models/output.py`.  `result` holds an
opaque framework payload (`Optional[Any]` in the source), modelled by a type
parameter.  Field defaults in the source: `result=None`, `error_message=None`,
`claims=[]`, `execution_status=SUCCESSFUL`, `execution_reason=None`. -/
structure FrameworkResult (α : Type) where
  framework_name : String
  success : Bool
  result : Option α
  error_message : Option String
  claims : List AnalyticalClaim
  execution_status : FrameworkExecutionStatus
  execution_reason : Option String
deriving DecidableEq

/-- Model `AnalysisSufficiencySummary` from `v1/models/output.py`. -/
structure AnalysisSufficiencySummary where
  decision_binding : DecisionBindingStatus
  option_coverage : CoverageStatus
  framework_coverage : CoverageStatus
  overall_status : AnalysisSufficiencyStatus
deriving DecidableEq

/-- Model `AnalysisResult` from `v1/models/output.py` (the `created_at`
timestamp and `generated_report` fields are not consulted by any function
verified here and are omitted). -/
structure AnalysisResult (α : Type) where
  id : String
  problem_context : ProblemContext
  porter_analysis : Option α
  systems_analysis : Option α
  porter_error : Option String
  systems_error : Option String
  framework_results : List (FrameworkResult α)
  analysis_sufficiency : Option AnalysisSufficiencySummary
deriving DecidableEq

/-! ## Claim validator (src/strategem/orchestrator.py lines 84-136) -/

/-- Binding rule applied to one claim by `validate_claims_option_binding`:
the body of the `for` loop, where `continue` means the claim is rejected.
The source's `applicable_options if claim.applicable_options else []` is the
identity on lists (an empty list maps to the empty list), so it is dropped.
A `claim_type` string other than the three enum values matches no branch and
the claim is appended unconditionally. -/
def claim_binding_ok (claim : AnalyticalClaim) : Bool :=
  if claim.claim_type = "option_specific" then
    decide (claim.applicable_options.length = 1)
  else if claim.claim_type = "comparative" then
    decide (2 ≤ claim.applicable_options.length)
  else if claim.claim_type = "system_level" then
    decide (claim.applicable_options = ["all"])
  else
    true

/-- `AnalysisOrchestrator.validate_claims_option_binding` from
`src/strategem/orchestrator.py` lines 84-136: iterate over the claims,
appending each claim that passes its type's binding rule to `valid_claims`
(the `rejected_claims` list is dead state: it is never returned). -/
def validate_claims_option_binding :
    List AnalyticalClaim → List String → List AnalyticalClaim
  | [], _ => []
  | claim :: rest, options =>
    if claim_binding_ok claim then
      claim :: validate_claims_option_binding rest options
    else
      validate_claims_option_binding rest options

theorem validate_eq_filter (claims : List AnalyticalClaim) (options : List String) :
    validate_claims_option_binding claims options = claims.filter claim_binding_ok := by
  induction claims with
  | nil => rfl
  | cons c rest ih =>
    by_cases h : claim_binding_ok c <;>
      simp [validate_claims_option_binding, List.filter_cons, h, ih]

/-! ## Framework sufficiency evaluator (orchestrator.py lines 138-187) -/

/-- The option list handed to the claim validator by
`validate_framework_sufficiency`:
`context.decision_focus.options if context.decision_focus else []`. -/
def focus_options : Option DecisionFocus → List String
  | some df => df.options
  | none => []

/-- Outcome of one call to `validate_framework_sufficiency`, recording Python
object semantics: `ret` is the value of the returned object, `input_after` is
the state of the argument object after the call (the source mutates it on one
branch), and `fresh` records whether the returned object is a newly
constructed instance (`True`) or the argument object itself (`False`). -/
structure VFSOutcome (α : Type) where
  ret : FrameworkResult α
  input_after : FrameworkResult α
  fresh : Bool
deriving DecidableEq

/-- `AnalysisOrchestrator.validate_framework_sufficiency` from
`src/strategem/orchestrator.py` lines 138-187.  The failed and insufficient
branches construct a new `FrameworkResult` (unpassed fields take the model
defaults); the successful branch assigns `framework_result.claims` and
`framework_result.execution_status` in place and returns the same object. -/
def validate_framework_sufficiency {α : Type}
    (framework_result : FrameworkResult α) (context : ProblemContext) :
    VFSOutcome α :=
  if framework_result.success = false then
    { ret := { framework_name := framework_result.framework_name
               success := false
               result := none
               error_message := none
               claims := []
               execution_status := .failed
               execution_reason := framework_result.error_message }
      input_after := framework_result
      fresh := true }
  else
    let valid_claims :=
      validate_claims_option_binding framework_result.claims
        (focus_options context.decision_focus)
    if valid_claims = [] then
      { ret := { framework_name := framework_result.framework_name
                 success := true
                 result := framework_result.result
                 error_message := none
                 claims := []
                 execution_status := .insufficient
                 execution_reason :=
                   some "Framework produced no valid claims affecting the decision space" }
        input_after := framework_result
        fresh := true }
    else
      let mutated := { framework_result with
                       claims := valid_claims
                       execution_status := .successful }
      { ret := mutated, input_after := mutated, fresh := false }

/-! ## Analysis sufficiency aggregator (orchestrator.py lines 189-270) -/

/-- `AnalysisOrchestrator.compute_analysis_sufficiency` from
`src/strategem/orchestrator.py` lines 189-270, translated clause by clause.
The decision-binding step tests only the presence of `decision_focus`
(`if not result.problem_context.decision_focus`); pydantic model instances are
always truthy, so presence means `isSome`. -/
def compute_analysis_sufficiency {α : Type} (result : AnalysisResult α) :
    AnalysisSufficiencySummary :=
  let decision_binding :=
    match result.problem_context.decision_focus with
    | none => DecisionBindingStatus.genuinely_ambiguous
    | some _ => DecisionBindingStatus.decision_context_present
  let option_coverage :=
    match result.problem_context.decision_focus with
    | none => CoverageStatus.not_applicable
    | some df =>
      if df.options.length = 0 then
        CoverageStatus.not_applicable
      else
        let all_claims := (result.framework_results.map (fun fw => fw.claims)).flatten
        let uncovered_options :=
          df.options.filter
            (fun opt => !(all_claims.any (fun c => c.applicable_options.contains opt)))
        if uncovered_options = [] then CoverageStatus.complete
        else CoverageStatus.partialC
  let framework_coverage :=
    if result.framework_results.isEmpty then
      CoverageStatus.complete
    else if result.framework_results.countP
        (fun fw => decide (fw.execution_status = .successful)) <
        result.framework_results.length then
      CoverageStatus.partialC
    else
      CoverageStatus.complete
  let overall_status :=
    if decision_binding = DecisionBindingStatus.genuinely_ambiguous then
      AnalysisSufficiencyStatus.exploratory_pre_decision
    else if option_coverage = CoverageStatus.partialC ∨
        framework_coverage = CoverageStatus.partialC then
      AnalysisSufficiencyStatus.decision_relevant_but_constrained
    else
      AnalysisSufficiencyStatus.decision_relevant_reasoning_produced
  { decision_binding := decision_binding
    option_coverage := option_coverage
    framework_coverage := framework_coverage
    overall_status := overall_status }

/-- Does the problem context carry a `DecisionFocus` with at least two
options?  This is the condition the specification attaches to
`decision_context_present`. -/
def has_decision_focus_with_two_options (pc : ProblemContext) : Bool :=
  match pc.decision_focus with
  | some df => decide (2 ≤ df.options.length)
  | none => false

/-! ## Theorems for claims C2 and C3 -/

/-- C2: for every input list of claims and every list of valid options, the
claim validator returns exactly the subsequence of the input consisting of the
claims that satisfy their type's binding rule (`option_specific` iff exactly 1
applicable option, `comparative` iff at least 2, `system_level` iff exactly
`["all"]`; other type strings pass), each survivor unchanged and in the
original order, nothing inserted.  The Lean function is total, which reflects
that the source loop cannot raise. -/
theorem C2_claim_validator_strict_filter
    (claims : List AnalyticalClaim) (options : List String) :
    validate_claims_option_binding claims options =
      claims.filter (fun claim =>
        if claim.claim_type = "option_specific" then
          decide (claim.applicable_options.length = 1)
        else if claim.claim_type = "comparative" then
          decide (2 ≤ claim.applicable_options.length)
        else if claim.claim_type = "system_level" then
          decide (claim.applicable_options = ["all"])
        else
          true) ∧
    (validate_claims_option_binding claims options).Sublist claims := by
  refine ⟨validate_eq_filter claims options, ?_⟩
  rw [validate_eq_filter]
  exact List.filter_sublist claims

/-- C3: the claim validator's output does not depend on the valid-options
argument; in particular a claim whose `applicable_options` are not drawn from
the run's option set is still accepted whenever its cardinality rule holds. -/
theorem C3_validator_ignores_options :
    (∀ (claims : List AnalyticalClaim) (opts1 opts2 : List String),
      validate_claims_option_binding claims opts1 =
        validate_claims_option_binding claims opts2) ∧
    (∀ (claim : AnalyticalClaim) (opts : List String),
      claim_binding_ok claim = true →
      validate_claims_option_binding [claim] opts = [claim]) := by
  constructor
  · intro claims opts1 opts2
    rw [validate_eq_filter, validate_eq_filter]
  · intro claim opts h
    simp [validate_claims_option_binding, h]

/-- Witness for C3: a comparative claim whose two applicable options are
disjoint from the run's valid option set is accepted. -/
theorem C3_validator_ignores_options_witness :
    validate_claims_option_binding
      [{ statement := "s", source := .inference, confidence := .medium,
         framework := some "porter", claim_type := "comparative",
         applicable_options := ["X", "Y"], affected_options := [] }]
      ["A", "B"] =
      [{ statement := "s", source := .inference, confidence := .medium,
         framework := some "porter", claim_type := "comparative",
         applicable_options := ["X", "Y"], affected_options := [] }] :=
  C3_validator_ignores_options.2
    { statement := "s", source := .inference, confidence := .medium,
      framework := some "porter", claim_type := "comparative",
      applicable_options := ["X", "Y"], affected_options := [] }
    ["A", "B"] (by decide)

/-! ## Concrete instances used by counterexamples and witnesses -/

/-- A valid system-level claim (mirrors the shape used by the repository's own
tests in `tests/test_v1_completeness.py`). -/
def exampleClaimSystem : AnalyticalClaim :=
  { statement := "Market dynamics are shifting", source := .inference,
    confidence := .medium, framework := some "porter",
    claim_type := "system_level",
    applicable_options := ["all"], affected_options := [] }

/-- An invalid option-specific claim: two applicable options where the binding
rule requires exactly one. -/
def exampleClaimBadOptionSpecific : AnalyticalClaim :=
  { statement := "This option has high supplier power", source := .inference,
    confidence := .medium, framework := some "porter",
    claim_type := "option_specific",
    applicable_options := ["Option A", "Option B"], affected_options := [] }

/-- A problem context with no decision focus. -/
def contextNoFocus : ProblemContext :=
  { title := "Test", problem_statement := "Test problem", objectives := [],
    constraints := [], provided_materials := [], declared_assumptions := [],
    decision_focus := none, raw_content := none, structured_content := none,
    source_type := "text" }

/-- A problem context whose decision focus has a single option; the pydantic
`DecisionFocus` model accepts this. -/
def contextOneOption : ProblemContext :=
  { contextNoFocus with
    decision_focus := some { decision_question := "Which option?",
                             decision_type := "compare",
                             options := ["Option A"] } }

/-- An analysis result over the one-option context. -/
def analysisOneOption : AnalysisResult Unit :=
  { id := "a1", problem_context := contextOneOption, porter_analysis := none,
    systems_analysis := none, porter_error := none, systems_error := none,
    framework_results := [], analysis_sufficiency := none }

/-- An analysis result over the no-focus context. -/
def analysisNoFocus : AnalysisResult Unit :=
  { analysisOneOption with problem_context := contextNoFocus }

/-- A framework result representing a raised call/parse/bind chain
(`success=False`, error recorded). -/
def frameworkFailedExample : FrameworkResult Unit :=
  { framework_name := "porter", success := false, result := none,
    error_message := some "API request failed: boom", claims := [],
    execution_status := .failed,
    execution_reason := some "API request failed: boom" }

/-- A framework result that bound successfully but produced no claims. -/
def frameworkNoClaims : FrameworkResult Unit :=
  { framework_name := "porter", success := true, result := none,
    error_message := none, claims := [], execution_status := .successful,
    execution_reason := none }

/-- A framework result with one valid and one invalid claim. -/
def frameworkMixedClaims : FrameworkResult Unit :=
  { frameworkNoClaims with
    claims := [exampleClaimSystem, exampleClaimBadOptionSpecific] }

/-! ## Theorems for claim C1 -/

/-- C1 counterexample: the aggregator marks `decision_context_present` for a
context whose `DecisionFocus` has only one option, whereas the claim requires
`genuinely_ambiguous` for any focus with fewer than two options.  The source
tests only `if not result.problem_context.decision_focus`. -/
theorem C1_counterexample :
    (compute_analysis_sufficiency analysisOneOption).decision_binding =
      DecisionBindingStatus.decision_context_present ∧
    has_decision_focus_with_two_options analysisOneOption.problem_context = false := by
  constructor <;> rfl

/-- C1 (amended): `decision_binding` is `decision_context_present` iff the
problem context carries a `DecisionFocus` at all (regardless of how many
options it has, since the model does not enforce a minimum), and
`genuinely_ambiguous` otherwise; whenever `decision_binding` is
`genuinely_ambiguous`, `overall_status` is `exploratory_pre_decision`
regardless of the framework results. -/
theorem C1_binding_is_presence {α : Type} (result : AnalysisResult α) :
    ((compute_analysis_sufficiency result).decision_binding =
        DecisionBindingStatus.decision_context_present ↔
      result.problem_context.decision_focus.isSome = true) ∧
    ((compute_analysis_sufficiency result).decision_binding =
        DecisionBindingStatus.genuinely_ambiguous →
      (compute_analysis_sufficiency result).overall_status =
        AnalysisSufficiencyStatus.exploratory_pre_decision) := by
  unfold compute_analysis_sufficiency
  cases h : result.problem_context.decision_focus with
  | none => simp
  | some df => simp

/-- Witness for C1: at the concrete no-focus analysis result, the binding is
genuinely ambiguous and the overall status is exploratory. -/
theorem C1_binding_is_presence_witness :
    (compute_analysis_sufficiency analysisNoFocus).overall_status =
      AnalysisSufficiencyStatus.exploratory_pre_decision :=
  (C1_binding_is_presence analysisNoFocus).2 (by decide)

/-! ## Theorems for claim C4 -/

/-- C4 counterexample: on the insufficient branch the evaluator's
`execution_reason` is the string
"Framework produced no valid claims affecting the decision space", not the
claim's "no valid claims affecting the decision space". -/
theorem C4_counterexample :
    (validate_framework_sufficiency frameworkNoClaims contextNoFocus).ret.execution_status =
      FrameworkExecutionStatus.insufficient ∧
    (validate_framework_sufficiency frameworkNoClaims contextNoFocus).ret.execution_reason ≠
      some "no valid claims affecting the decision space" ∧
    (validate_framework_sufficiency frameworkNoClaims contextNoFocus).ret.execution_reason =
      some "Framework produced no valid claims affecting the decision space" := by
  refine ⟨rfl, by decide, rfl⟩

/-- C4 (amended): if the underlying chain raised (`success=False`), the
returned result is `failed` with `execution_reason` equal to the underlying
error message; otherwise, if the claims validated against the run's option set
(or `[]` without a `DecisionFocus`) are empty, the returned result is
`insufficient` with reason "Framework produced no valid claims affecting the
decision space" and empty claims; otherwise the returned result is
`successful` and its claims are exactly the validated subset. -/
theorem C4_sufficiency_branches {α : Type}
    (fr : FrameworkResult α) (ctx : ProblemContext) :
    (fr.success = false →
      (validate_framework_sufficiency fr ctx).ret.execution_status =
        FrameworkExecutionStatus.failed ∧
      (validate_framework_sufficiency fr ctx).ret.execution_reason =
        fr.error_message) ∧
    (fr.success = true →
      validate_claims_option_binding fr.claims (focus_options ctx.decision_focus) = [] →
      (validate_framework_sufficiency fr ctx).ret.execution_status =
        FrameworkExecutionStatus.insufficient ∧
      (validate_framework_sufficiency fr ctx).ret.execution_reason =
        some "Framework produced no valid claims affecting the decision space" ∧
      (validate_framework_sufficiency fr ctx).ret.claims = []) ∧
    (fr.success = true →
      validate_claims_option_binding fr.claims (focus_options ctx.decision_focus) ≠ [] →
      (validate_framework_sufficiency fr ctx).ret.execution_status =
        FrameworkExecutionStatus.successful ∧
      (validate_framework_sufficiency fr ctx).ret.claims =
        validate_claims_option_binding fr.claims (focus_options ctx.decision_focus)) := by
  refine ⟨fun h => ?_, fun h hv => ?_, fun h hv => ?_⟩
  · simp [validate_framework_sufficiency, h]
  · simp [validate_framework_sufficiency, h, hv]
  · simp [validate_framework_sufficiency, h, hv]

/-- Witness for C4: the failed branch at a concrete failed framework result. -/
theorem C4_sufficiency_branches_witness :
    (validate_framework_sufficiency frameworkFailedExample contextNoFocus).ret.execution_status =
      FrameworkExecutionStatus.failed ∧
    (validate_framework_sufficiency frameworkFailedExample contextNoFocus).ret.execution_reason =
      frameworkFailedExample.error_message :=
  (C4_sufficiency_branches frameworkFailedExample contextNoFocus).1 rfl

/-! ## Theorems for claim C5 -/

/-- C5 counterexample: on the successful branch the evaluator does not produce
a new instance — it returns the input object itself with its `claims` field
reassigned (here the invalid claim has been dropped), so the input is not left
unchanged. -/
theorem C5_counterexample :
    (validate_framework_sufficiency frameworkMixedClaims contextNoFocus).fresh = false ∧
    (validate_framework_sufficiency frameworkMixedClaims contextNoFocus).input_after ≠
      frameworkMixedClaims ∧
    (validate_framework_sufficiency frameworkMixedClaims contextNoFocus).input_after.claims =
      [exampleClaimSystem] := by
  refine ⟨rfl, by decide, rfl⟩

/-- C5 (amended): on the failed and insufficient branches
`validate_framework_sufficiency` produces a new `FrameworkResult` instance and
leaves the input instance unchanged; on the successful branch it instead
mutates the input instance in place (reassigning `claims` to the validated
subset and `execution_status` to `successful`) and returns that same
instance. -/
theorem C5_instance_behavior {α : Type}
    (fr : FrameworkResult α) (ctx : ProblemContext) :
    (fr.success = false →
      (validate_framework_sufficiency fr ctx).fresh = true ∧
      (validate_framework_sufficiency fr ctx).input_after = fr) ∧
    (fr.success = true →
      validate_claims_option_binding fr.claims (focus_options ctx.decision_focus) = [] →
      (validate_framework_sufficiency fr ctx).fresh = true ∧
      (validate_framework_sufficiency fr ctx).input_after = fr) ∧
    (fr.success = true →
      validate_claims_option_binding fr.claims (focus_options ctx.decision_focus) ≠ [] →
      (validate_framework_sufficiency fr ctx).fresh = false ∧
      (validate_framework_sufficiency fr ctx).input_after =
        (validate_framework_sufficiency fr ctx).ret ∧
      (validate_framework_sufficiency fr ctx).ret =
        { fr with
          claims := validate_claims_option_binding fr.claims
            (focus_options ctx.decision_focus)
          execution_status := FrameworkExecutionStatus.successful }) := by
  refine ⟨fun h => ?_, fun h hv => ?_, fun h hv => ?_⟩
  · simp [validate_framework_sufficiency, h]
  · simp [validate_framework_sufficiency, h, hv]
  · simp [validate_framework_sufficiency, h, hv]

/-- Witness for C5: the insufficient branch at a concrete claim-free framework
result leaves the input unchanged and returns a fresh instance. -/
theorem C5_instance_behavior_witness :
    (validate_framework_sufficiency frameworkNoClaims contextNoFocus).fresh = true ∧
    (validate_framework_sufficiency frameworkNoClaims contextNoFocus).input_after =
      frameworkNoClaims :=
  (C5_instance_behavior frameworkNoClaims contextNoFocus).2.1 rfl rfl

/-! ## Retry controller (src/strategem/core/llm.py lines 185-221; the loop in
src/strategem/llm_layer.py lines 323-370 is identical)

The body of one attempt — `call_api` followed by `parse_response` (in the
`llm_layer` variant, `_make_request` followed by the parsing cascade) — is
abstracted as an oracle `f : Nat → Except String α` giving, for each attempt
index, either the parsed value or the message of the exception raised at any
stage of that attempt.  The loop `for attempt in range(max_retries + 1)` is
modelled with a countdown `left = max_retries - attempt`, which is the number
of further attempts still allowed; the loop body never exits early in any
other way, so this is an exact rendering. -/

/-- One step of `run_analysis`: try attempt number `attempt`; on failure,
retry while attempts remain (`attempt < max_retries` iff `left > 0`), else
raise `LLMError(f"Analysis failed after {max_retries + 1} attempts: {e}")`.
Returns the result together with the number of attempts actually made from
this point on. -/
def run_analysis_aux {α : Type} (f : Nat → Except String α) (max_retries : Nat) :
    Nat → Nat → Except String α × Nat
  | attempt, 0 =>
    match f attempt with
    | .ok v => (.ok v, 1)
    | .error e =>
      (.error ("Analysis failed after " ++ toString (max_retries + 1) ++
        " attempts: " ++ e), 1)
  | attempt, left + 1 =>
    match f attempt with
    | .ok v => (.ok v, 1)
    | .error _ =>
      let r := run_analysis_aux f max_retries (attempt + 1) left
      (r.1, r.2 + 1)

/-- `run_analysis` from `src/strategem/core/llm.py` lines 185-221: attempt the
call/parse chain up to `max_retries + 1` times, surfacing only the last
attempt's error. -/
def run_analysis {α : Type} (f : Nat → Except String α) (max_retries : Nat) :
    Except String α :=
  (run_analysis_aux f max_retries 0 max_retries).1

/-- Number of attempts (invocations of the call/parse chain) made by
`run_analysis`. -/
def run_analysis_attempts {α : Type} (f : Nat → Except String α)
    (max_retries : Nat) : Nat :=
  (run_analysis_aux f max_retries 0 max_retries).2

/-- The oracle of the specification's scenario: an attempt chain that fails on
its first two invocations (attempt indices 0 and 1) and succeeds from the
third on. -/
def failsTwice {α : Type} (e : String) (v : α) : Nat → Except String α :=
  fun attempt => if attempt < 2 then .error e else .ok v

theorem run_analysis_aux_count_le {α : Type} (f : Nat → Except String α)
    (m : Nat) : ∀ left attempt,
    (run_analysis_aux f m attempt left).2 ≤ left + 1 := by
  intro left
  induction left with
  | zero =>
    intro attempt
    cases h : f attempt <;> simp [run_analysis_aux, h]
  | succ n ih =>
    intro attempt
    cases h : f attempt with
    | ok v => simp [run_analysis_aux, h]
    | error e =>
      have := ih (attempt + 1)
      simp only [run_analysis_aux, h]
      omega

theorem run_analysis_aux_all_fail {α : Type} (f : Nat → Except String α)
    (m : Nat) (e : Nat → String) : ∀ (left attempt : Nat),
    (∀ k, attempt ≤ k → k ≤ attempt + left → f k = .error (e k)) →
    (run_analysis_aux f m attempt left).1 =
      .error ("Analysis failed after " ++ toString (m + 1) ++ " attempts: " ++
        e (attempt + left)) := by
  intro left
  induction left with
  | zero =>
    intro attempt h
    have h0 := h attempt le_rfl (by omega)
    simp [run_analysis_aux, h0]
  | succ n ih =>
    intro attempt h
    have h0 := h attempt le_rfl (by omega)
    have hrec := ih (attempt + 1) (fun k hk1 hk2 => h k (by omega) (by omega))
    simp only [run_analysis_aux, h0]
    rw [hrec]
    have harith : attempt + 1 + n = attempt + (n + 1) := by omega
    rw [harith]

/-- C6: the retry controller makes at most `max_retries + 1` attempts (any
exception at any stage of an attempt is one failed attempt); when every
attempt fails it surfaces only the last attempt's error, wrapped with the
total attempt count; and for a chain that fails on its first two invocations
and succeeds on the third, it fails overall with `max_retries = 1` (two
attempts) but succeeds on the third attempt with `max_retries = 2`. -/
theorem C6_retry_controller {α : Type} :
    (∀ (f : Nat → Except String α) (max_retries : Nat),
      run_analysis_attempts f max_retries ≤ max_retries + 1) ∧
    (∀ (f : Nat → Except String α) (max_retries : Nat) (e : Nat → String),
      (∀ k, k ≤ max_retries → f k = .error (e k)) →
      run_analysis f max_retries =
        .error ("Analysis failed after " ++ toString (max_retries + 1) ++
          " attempts: " ++ e max_retries)) ∧
    (∀ (e : String) (v : α),
      run_analysis (failsTwice e v) 1 =
        .error ("Analysis failed after 2 attempts: " ++ e) ∧
      run_analysis (failsTwice e v) 2 = .ok v ∧
      run_analysis_attempts (failsTwice e v) 2 = 3) := by
  refine ⟨?_, ?_, ?_⟩
  · intro f m
    have := run_analysis_aux_count_le f m m 0
    simpa [run_analysis_attempts] using this
  · intro f m e h
    have := run_analysis_aux_all_fail f m e m 0
      (fun k hk1 hk2 => h k (by omega))
    simpa [run_analysis] using this
  · intro e v
    refine ⟨?_, ?_, ?_⟩
    all_goals simp [run_analysis, run_analysis_attempts, run_analysis_aux, failsTwice]
    all_goals rfl

/-- Witness for C6: with a chain that always fails, two allowed attempts
produce the wrapped last error; the concrete scenario conjuncts are also
instantiated. -/
theorem C6_retry_controller_witness :
    run_analysis (α := Unit) (fun k => .error ("boom " ++ toString k)) 1 =
      .error "Analysis failed after 2 attempts: boom 1" ∧
    run_analysis (failsTwice "parse error" ()) 1 =
      .error "Analysis failed after 2 attempts: parse error" ∧
    run_analysis (failsTwice "parse error" ()) 2 = .ok () ∧
    run_analysis_attempts (failsTwice "parse error" ()) 2 = 3 := by
  refine ⟨?_, ?_, ?_, ?_⟩
  · exact C6_retry_controller.2.1 (fun k => .error ("boom " ++ toString k)) 1
      (fun k => "boom " ++ toString k) (fun k _ => rfl)
  · exact (C6_retry_controller.2.2 "parse error" ()).1
  · exact (C6_retry_controller.2.2 "parse error" ()).2.1
  · exact (C6_retry_controller.2.2 "parse error" ()).2.2

/-! ## JSON values and Python-dict association lists

`Json` models the values produced by `json.loads` and fed to
`_convert_keys_to_snake_case`.  Numbers are modelled as integers (see the file
header).  Python dicts are association lists with unique keys maintained by
`assignKey`, which mirrors `d[k] = v`: an existing key keeps its position and
receives the new value, a new key is appended (insertion order). -/

/-- A JSON value. -/
inductive Json where
  | null
  | bool (b : Bool)
  | num (n : Int)
  | str (s : String)
  | arr (items : List Json)
  | obj (fields : List (String × Json))

mutual

/-- Structural Boolean equality on JSON values (the nested inductive prevents
deriving `DecidableEq` directly). -/
def Json.beq : Json → Json → Bool
  | Json.null, Json.null => true
  | Json.bool b1, Json.bool b2 => b1 = b2
  | Json.num n1, Json.num n2 => decide (n1 = n2)
  | Json.str s1, Json.str s2 => decide (s1 = s2)
  | Json.arr l1, Json.arr l2 => Json.beqItems l1 l2
  | Json.obj f1, Json.obj f2 => Json.beqFields f1 f2
  | _, _ => false

/-- Boolean equality on JSON object field lists. -/
def Json.beqFields : List (String × Json) → List (String × Json) → Bool
  | [], [] => true
  | (k1, v1) :: r1, (k2, v2) :: r2 =>
    decide (k1 = k2) && Json.beq v1 v2 && Json.beqFields r1 r2
  | _, _ => false

/-- Boolean equality on JSON arrays. -/
def Json.beqItems : List Json → List Json → Bool
  | [], [] => true
  | v1 :: r1, v2 :: r2 => Json.beq v1 v2 && Json.beqItems r1 r2
  | _, _ => false

end

theorem sizeOf_json_parts (l : List Json) (f : List (String × Json)) :
    sizeOf l < sizeOf (Json.arr l) ∧ sizeOf f < sizeOf (Json.obj f) := by
  constructor <;> simp

theorem Json.beq_refl_all : ∀ (n : Nat),
    (∀ (j : Json), sizeOf j ≤ n → Json.beq j j = true) ∧
    (∀ (l : List Json), sizeOf l ≤ n → Json.beqItems l l = true) ∧
    (∀ (f : List (String × Json)), sizeOf f ≤ n → Json.beqFields f f = true) := by
  intro n
  induction n using Nat.strong_induction_on with
  | _ n ih =>
    refine ⟨?_, ?_, ?_⟩
    · intro j hj
      match j with
      | .null => rfl
      | .bool b => simp [Json.beq]
      | .num m => simp [Json.beq]
      | .str s => simp [Json.beq]
      | .arr l =>
        have hl : sizeOf l < n :=
          lt_of_lt_of_le (sizeOf_json_parts l []).1 hj
        exact (ih (sizeOf l) hl).2.1 l le_rfl
      | .obj f =>
        have hf : sizeOf f < n :=
          lt_of_lt_of_le (sizeOf_json_parts [] f).2 hj
        exact (ih (sizeOf f) hf).2.2 f le_rfl
    · intro l hl
      match l with
      | [] => rfl
      | v :: rest =>
        have hv : sizeOf v < n := by simp at hl; omega
        have hr : sizeOf rest < n := by simp at hl; omega
        rw [Json.beqItems, (ih (sizeOf v) hv).1 v le_rfl, Bool.true_and]
        exact (ih (sizeOf rest) hr).2.1 rest le_rfl
    · intro f hf
      match f with
      | [] => rfl
      | (k, v) :: rest =>
        have hv : sizeOf v < n := by simp at hf; omega
        have hr : sizeOf rest < n := by simp at hf; omega
        rw [Json.beqFields, (ih (sizeOf v) hv).1 v le_rfl]
        simp only [decide_True, Bool.and_true, Bool.true_and]
        exact (ih (sizeOf rest) hr).2.2 rest le_rfl

theorem Json.beq_sound_all : ∀ (n : Nat),
    (∀ (a : Json), sizeOf a ≤ n → ∀ b, Json.beq a b = true → a = b) ∧
    (∀ (l1 : List Json), sizeOf l1 ≤ n →
      ∀ l2, Json.beqItems l1 l2 = true → l1 = l2) ∧
    (∀ (f1 : List (String × Json)), sizeOf f1 ≤ n →
      ∀ f2, Json.beqFields f1 f2 = true → f1 = f2) := by
  intro n
  induction n using Nat.strong_induction_on with
  | _ n ih =>
    refine ⟨?_, ?_, ?_⟩
    · intro a ha b hab
      match a, b with
      | .null, .null => rfl
      | .bool b1, .bool b2 =>
        simp only [Json.beq, decide_eq_true_eq] at hab
        rw [hab]
      | .num n1, .num n2 =>
        simp only [Json.beq, decide_eq_true_eq] at hab
        rw [hab]
      | .str s1, .str s2 =>
        simp only [Json.beq, decide_eq_true_eq] at hab
        rw [hab]
      | .arr l1, .arr l2 =>
        have hl : sizeOf l1 < n :=
          lt_of_lt_of_le (sizeOf_json_parts l1 []).1 ha
        rw [(ih (sizeOf l1) hl).2.1 l1 le_rfl l2 hab]
      | .obj f1, .obj f2 =>
        have hf : sizeOf f1 < n :=
          lt_of_lt_of_le (sizeOf_json_parts [] f1).2 ha
        rw [(ih (sizeOf f1) hf).2.2 f1 le_rfl f2 hab]
      | .null, .bool b2 => exact Bool.noConfusion hab
      | .null, .num n2 => exact Bool.noConfusion hab
      | .null, .str s2 => exact Bool.noConfusion hab
      | .null, .arr l2 => exact Bool.noConfusion hab
      | .null, .obj f2 => exact Bool.noConfusion hab
      | .bool b1, .null => exact Bool.noConfusion hab
      | .bool b1, .num n2 => exact Bool.noConfusion hab
      | .bool b1, .str s2 => exact Bool.noConfusion hab
      | .bool b1, .arr l2 => exact Bool.noConfusion hab
      | .bool b1, .obj f2 => exact Bool.noConfusion hab
      | .num n1, .null => exact Bool.noConfusion hab
      | .num n1, .bool b2 => exact Bool.noConfusion hab
      | .num n1, .str s2 => exact Bool.noConfusion hab
      | .num n1, .arr l2 => exact Bool.noConfusion hab
      | .num n1, .obj f2 => exact Bool.noConfusion hab
      | .str s1, .null => exact Bool.noConfusion hab
      | .str s1, .bool b2 => exact Bool.noConfusion hab
      | .str s1, .num n2 => exact Bool.noConfusion hab
      | .str s1, .arr l2 => exact Bool.noConfusion hab
      | .str s1, .obj f2 => exact Bool.noConfusion hab
      | .arr l1, .null => exact Bool.noConfusion hab
      | .arr l1, .bool b2 => exact Bool.noConfusion hab
      | .arr l1, .num n2 => exact Bool.noConfusion hab
      | .arr l1, .str s2 => exact Bool.noConfusion hab
      | .arr l1, .obj f2 => exact Bool.noConfusion hab
      | .obj f1, .null => exact Bool.noConfusion hab
      | .obj f1, .bool b2 => exact Bool.noConfusion hab
      | .obj f1, .num n2 => exact Bool.noConfusion hab
      | .obj f1, .str s2 => exact Bool.noConfusion hab
      | .obj f1, .arr l2 => exact Bool.noConfusion hab
    · intro l1 hl l2 h12
      match l1, l2 with
      | [], [] => rfl
      | [], w :: r2 => exact Bool.noConfusion h12
      | v :: rest, [] => exact Bool.noConfusion h12
      | v :: rest, w :: r2 =>
        rw [Json.beqItems, Bool.and_eq_true] at h12
        rcases h12 with ⟨h1, h2⟩
        have hv : sizeOf v < n := by simp at hl; omega
        have hr : sizeOf rest < n := by simp at hl; omega
        rw [(ih (sizeOf v) hv).1 v le_rfl w h1,
          (ih (sizeOf rest) hr).2.1 rest le_rfl r2 h2]
    · intro f1 hf f2 h12
      match f1, f2 with
      | [], [] => rfl
      | [], q :: r2 => exact Bool.noConfusion h12
      | p :: rest, [] => exact Bool.noConfusion h12
      | (k1, v1) :: rest, (k2, v2) :: r2 =>
        rw [Json.beqFields, Bool.and_eq_true, Bool.and_eq_true] at h12
        rcases h12 with ⟨⟨h0, h1⟩, h2⟩
        have hkey : k1 = k2 := of_decide_eq_true h0
        have hv : sizeOf v1 < n := by simp at hf; omega
        have hr : sizeOf rest < n := by simp at hf; omega
        rw [hkey, (ih (sizeOf v1) hv).1 v1 le_rfl v2 h1,
          (ih (sizeOf rest) hr).2.2 rest le_rfl r2 h2]

instance : DecidableEq Json := fun a b =>
  if h : Json.beq a b = true then
    isTrue ((Json.beq_sound_all (sizeOf a)).1 a le_rfl b h)
  else
    isFalse (fun he => h (by rw [he]; exact (Json.beq_refl_all (sizeOf b)).1 b le_rfl))

/-- Python dict assignment `d[k] = v` on an association list. -/
def assignKey {β : Type} : List (String × β) → String → β → List (String × β)
  | [], k, v => [(k, v)]
  | (k1, v1) :: rest, k, v =>
    if k1 = k then (k1, v) :: rest else (k1, v1) :: assignKey rest k v

/-- The keys of an association list, in order. -/
def keysOf {β : Type} (l : List (String × β)) : List String := l.map Prod.fst

/-! ## Key normalizer (src/strategem/core/llm.py lines 275-304; identical in
src/strategem/llm_layer.py lines 144-184) -/

/-- Model of `re.sub("(.)([A-Z][a-z]+)", r"\1_\2", key)`: scan left to right;
at each position match any non-newline character followed by an uppercase
letter followed by a maximal nonempty run of lowercase letters, insert `_`
after the first character, and resume scanning after the matched run.  The
fuel argument bounds the number of emitted segments; each recursive call
consumes at least one character, so `length + 1` fuel is exact and the
zero-fuel branch is unreachable from `to_snake_case`. -/
def headIsLower : List Char → Bool
  | c :: _ => c.isLower
  | [] => false

def camelSub1 : Nat → List Char → List Char
  | 0, cs => cs
  | _ + 1, [] => []
  | fuel + 1, c1 :: rest =>
    match rest with
    | [] => [c1]
    | c2 :: rest2 =>
      if c1 ≠ '\n' ∧ c2.isUpper = true ∧ headIsLower rest2 = true then
        c1 :: '_' :: c2 :: (rest2.takeWhile Char.isLower ++
          camelSub1 fuel (rest2.dropWhile Char.isLower))
      else
        c1 :: camelSub1 fuel (c2 :: rest2)

/-- Model of `re.sub("([a-z0-9])([A-Z])", r"\1_\2", s1)`: insert `_` between a
lowercase letter or digit and a following uppercase letter.  The matched
uppercase character cannot itself start a match, so resuming at it is
equivalent to the source's resumption after the match. -/
def camelSub2 : List Char → List Char
  | [] => []
  | [c] => [c]
  | c1 :: c2 :: rest =>
    if (c1.isLower || c1.isDigit) && c2.isUpper then
      c1 :: '_' :: camelSub2 (c2 :: rest)
    else
      c1 :: camelSub2 (c2 :: rest)

/-- `to_snake_case` from `_convert_keys_to_snake_case` (core/llm.py lines
278-280): the two substitutions followed by `.lower()` (ASCII, as in the
source's character classes). -/
def to_snake_case (s : String) : String :=
  ⟨(camelSub2 (camelSub1 (s.data.length + 1) s.data)).map Char.toLower⟩

/-- The inner loop converting the keys of a nested dict (one level only;
nested values are left untouched), building `converted_nested` by Python dict
assignment. -/
def convertNested : List (String × Json) → List (String × Json) →
    List (String × Json)
  | [], acc => acc
  | (k, v) :: rest, acc => convertNested rest (assignKey acc (to_snake_case k) v)

mutual

/-- `_convert_keys_to_snake_case` from `src/strategem/core/llm.py` lines
275-304: non-dict input is returned unchanged; for a dict, each top-level key
is kept as-is and its value is processed by the loop body (`convertValue`). -/
def convert_keys_to_snake_case : Json → Json
  | Json.obj fields => Json.obj (convertTop fields [])
  | data => data

/-- The `for key, value in data.items()` loop of
`_convert_keys_to_snake_case`, accumulating `result` (initially `{}`). -/
def convertTop : List (String × Json) → List (String × Json) →
    List (String × Json)
  | [], result => result
  | (key, value) :: rest, result =>
    convertTop rest (assignKey result key (convertValue value))

/-- The loop body of `_convert_keys_to_snake_case` applied to one value: a
dict value has its keys converted one level; a list value is converted
element-wise (dict elements recursively, others unchanged); any other value is
kept. -/
def convertValue : Json → Json
  | Json.obj nested => Json.obj (convertNested nested [])
  | Json.arr items => Json.arr (convertItems items)
  | value => value

/-- The list comprehension of `_convert_keys_to_snake_case`:
`[convert(item) if isinstance(item, dict) else item for item in value]`. -/
def convertItems : List Json → List Json
  | [] => []
  | item :: rest =>
    (match item with
     | Json.obj fields => convert_keys_to_snake_case (Json.obj fields)
     | _ => item) :: convertItems rest

end

/-- Does an association list have no duplicate key and only values satisfying
`p`?  Used to state the fixed-point half of C9 on nested dict levels that
`convertNested` touches: every key must already be its own snake-case form. -/
def nestedSnakeFixed : List (String × Json) → Bool
  | [] => true
  | (k, _) :: rest =>
    decide (k ∉ keysOf rest) && decide (to_snake_case k = k) &&
      nestedSnakeFixed rest

mutual

/-- Fixed-point predicate for a top-level dict: keys unique, every value fixed
for the loop body. -/
def snakeTopFixed : List (String × Json) → Bool
  | [] => true
  | (k, v) :: rest =>
    decide (k ∉ keysOf rest) && snakeValFixed v && snakeTopFixed rest

/-- Fixed-point predicate for one value under the loop body: a dict value must
have unique, already-snake-case keys; a list value must be element-wise
fixed. -/
def snakeValFixed : Json → Bool
  | Json.obj nested => nestedSnakeFixed nested
  | Json.arr items => snakeItemsFixed items
  | _ => true

/-- Fixed-point predicate for list elements: dict elements must be fixed for
the full conversion, others are always fixed. -/
def snakeItemsFixed : List Json → Bool
  | [] => true
  | Json.obj fields :: rest => snakeTopFixed fields && snakeItemsFixed rest
  | _ :: rest => snakeItemsFixed rest

end

/-- A mapping whose nested keys (at exactly the levels the normalizer
rewrites) are already snake_case, with the unique keys every Python dict
has. -/
def snake_fixed : Json → Bool
  | Json.obj fields => snakeTopFixed fields
  | _ => true

/-! ### Character-level lemmas for `to_snake_case` -/

theorem toLower_isUpper_false (c : Char) : (c.toLower).isUpper = false := by
  simp only [Char.toLower, Char.toNat]
  split
  · rename_i h
    have hvalid : (c.val.toNat + 32).isValidChar := by
      constructor
      omega
    have hval : (Char.ofNat (c.val.toNat + 32)).val.toNat = c.val.toNat + 32 := by
      simp only [Char.ofNat, hvalid, dite_true]
      simp [Char.ofNatAux, UInt32.toNat]
    simp only [Char.isUpper, ge_iff_le, Bool.and_eq_false_iff]
    right
    simp only [decide_eq_false_iff_not]
    intro hle
    have hn := (UInt32.le_def).mp hle
    rw [BitVec.le_def] at hn
    change (Char.ofNat (c.val.toNat + 32)).val.toNat ≤ 90 at hn
    omega
  · rename_i h
    simp only [Char.isUpper, ge_iff_le, Bool.and_eq_false_iff]
    by_cases h65 : 65 ≤ c.val.toNat
    · right
      simp only [decide_eq_false_iff_not]
      intro hle
      have hn := (UInt32.le_def).mp hle
      rw [BitVec.le_def] at hn
      change c.val.toNat ≤ 90 at hn
      omega
    · left
      simp only [decide_eq_false_iff_not]
      intro hle
      have hn := (UInt32.le_def).mp hle
      rw [BitVec.le_def] at hn
      change 65 ≤ c.val.toNat at hn
      omega

theorem toLower_eq_of_not_isUpper (c : Char) (h : c.isUpper = false) :
    c.toLower = c := by
  simp only [Char.toLower, Char.toNat]
  split
  · rename_i hc
    exfalso
    simp only [Char.isUpper, ge_iff_le, Bool.and_eq_false_iff,
      decide_eq_false_iff_not] at h
    rcases h with h | h
    · apply h
      rw [UInt32.le_def, BitVec.le_def]
      change 65 ≤ c.val.toNat
      omega
    · apply h
      rw [UInt32.le_def, BitVec.le_def]
      change c.val.toNat ≤ 90
      omega
  · rfl

/-- No character of the list is an ASCII uppercase letter. -/
def NoUpper (cs : List Char) : Prop := ∀ c ∈ cs, c.isUpper = false

theorem noUpper_map_toLower (cs : List Char) : NoUpper (cs.map Char.toLower) := by
  intro c hc
  rcases List.mem_map.mp hc with ⟨c0, _, rfl⟩
  exact toLower_isUpper_false c0

theorem map_toLower_of_noUpper (cs : List Char) (h : NoUpper cs) :
    cs.map Char.toLower = cs := by
  induction cs with
  | nil => rfl
  | cons c rest ih =>
    simp only [List.map_cons]
    rw [toLower_eq_of_not_isUpper c (h c (by simp)),
      ih (fun d hd => h d (by simp [hd]))]

theorem camelSub1_of_noUpper : ∀ (fuel : Nat) (cs : List Char), NoUpper cs →
    camelSub1 fuel cs = cs := by
  intro fuel
  induction fuel with
  | zero => intro cs _; rfl
  | succ n ih =>
    intro cs h
    match cs with
    | [] => rfl
    | [c1] => rfl
    | c1 :: c2 :: rest2 =>
      have h2 : c2.isUpper = false := h c2 (by simp)
      rw [camelSub1]
      rw [if_neg (by rintro ⟨-, hup, -⟩; rw [h2] at hup; exact Bool.false_ne_true hup)]
      rw [ih (c2 :: rest2) (fun d hd => h d (by simp at hd ⊢; tauto))]

theorem camelSub2_of_noUpper : ∀ (cs : List Char), NoUpper cs →
    camelSub2 cs = cs := by
  intro cs
  induction cs with
  | nil => intro _; rfl
  | cons c1 rest ih =>
    intro h
    match rest with
    | [] => rfl
    | c2 :: rest2 =>
      have h2 : c2.isUpper = false := h c2 (by simp)
      have hr : camelSub2 (c2 :: rest2) = c2 :: rest2 :=
        ih (fun d hd => h d (by simp at hd ⊢; tauto))
      rw [camelSub2, h2, Bool.and_false, if_neg (by simp), hr]

theorem to_snake_case_noUpper (s : String) : NoUpper (to_snake_case s).data :=
  noUpper_map_toLower _

theorem to_snake_case_of_noUpper (s : String) (h : NoUpper s.data) :
    to_snake_case s = s := by
  unfold to_snake_case
  rw [camelSub1_of_noUpper _ _ h, camelSub2_of_noUpper _ h,
    map_toLower_of_noUpper _ h]

theorem to_snake_case_idem (s : String) :
    to_snake_case (to_snake_case s) = to_snake_case s :=
  to_snake_case_of_noUpper _ (to_snake_case_noUpper s)

/-! ### Association-list lemmas for the normalizer -/

theorem keysOf_append {β : Type} (l1 l2 : List (String × β)) :
    keysOf (l1 ++ l2) = keysOf l1 ++ keysOf l2 := by
  simp [keysOf]

theorem assignKey_not_mem {β : Type} :
    ∀ (l : List (String × β)) (k : String) (v : β), k ∉ keysOf l →
    assignKey l k v = l ++ [(k, v)] := by
  intro l
  induction l with
  | nil => intro k v _; rfl
  | cons p rest ih =>
    intro k v h
    obtain ⟨k1, v1⟩ := p
    have hne : k1 ≠ k := by
      intro hcontr
      exact h (by simp [keysOf, hcontr])
    rw [assignKey, if_neg hne, ih k v (fun hmem => h (by simp [keysOf] at hmem ⊢; tauto))]
    simp

theorem keysOf_assignKey {β : Type} :
    ∀ (l : List (String × β)) (k : String) (v : β),
    keysOf (assignKey l k v) =
      if k ∈ keysOf l then keysOf l else keysOf l ++ [k] := by
  intro l
  induction l with
  | nil => intro k v; simp [assignKey, keysOf]
  | cons p rest ih =>
    intro k v
    obtain ⟨k1, v1⟩ := p
    by_cases hk : k1 = k
    · subst hk
      rw [assignKey, if_pos rfl]
      simp [keysOf]
    · rw [assignKey, if_neg hk]
      simp only [keysOf, List.map_cons] at ih ⊢
      rw [ih k v]
      by_cases hmem : k ∈ List.map Prod.fst rest
      · rw [if_pos hmem, if_pos (by simp [hmem])]
      · rw [if_neg hmem,
          if_neg (by simp only [List.mem_cons, hmem, or_false]
                     exact fun h => hk h.symm),
          List.cons_append]

theorem nodup_assignKey {β : Type} (l : List (String × β)) (k : String) (v : β)
    (h : (keysOf l).Nodup) : (keysOf (assignKey l k v)).Nodup := by
  rw [keysOf_assignKey]
  by_cases hmem : k ∈ keysOf l
  · simpa [hmem] using h
  · simp only [hmem, if_false]
    simp [List.nodup_append, h, hmem]

theorem mem_assignKey {β : Type} :
    ∀ (l : List (String × β)) (k : String) (v : β) (p : String × β),
    p ∈ assignKey l k v → p ∈ l ∨ p.2 = v := by
  intro l
  induction l with
  | nil =>
    intro k v p hp
    simp [assignKey] at hp
    right
    rw [hp]
  | cons q rest ih =>
    intro k v p hp
    obtain ⟨k1, v1⟩ := q
    by_cases hk : k1 = k
    · rw [assignKey, if_pos hk] at hp
      rcases List.mem_cons.mp hp with rfl | hmem
      · right; rfl
      · left; exact List.mem_cons_of_mem _ hmem
    · rw [assignKey, if_neg hk] at hp
      rcases List.mem_cons.mp hp with rfl | hmem
      · left; exact List.mem_cons_self _ _
      · rcases ih k v p hmem with h1 | h2
        · left; exact List.mem_cons_of_mem _ h1
        · right; exact h2

theorem convertTop_nodup :
    ∀ (l acc : List (String × Json)), (keysOf acc).Nodup →
    (keysOf (convertTop l acc)).Nodup := by
  intro l
  induction l with
  | nil => intro acc h; exact h
  | cons p rest ih =>
    intro acc h
    obtain ⟨key, value⟩ := p
    exact ih _ (nodup_assignKey _ _ _ h)

theorem convertTop_values :
    ∀ (l acc : List (String × Json)) (p : String × Json),
    p ∈ convertTop l acc →
    p ∈ acc ∨ ∃ k0 v0, (k0, v0) ∈ l ∧ p.2 = convertValue v0 := by
  intro l
  induction l with
  | nil => intro acc p hp; left; exact hp
  | cons q rest ih =>
    intro acc p hp
    obtain ⟨key, value⟩ := q
    rcases ih _ p hp with hacc | ⟨k0, v0, hmem, hv⟩
    · rcases mem_assignKey _ _ _ _ hacc with h1 | h2
      · left; exact h1
      · right; exact ⟨key, value, List.mem_cons_self _ _, h2⟩
    · right; exact ⟨k0, v0, List.mem_cons_of_mem _ hmem, hv⟩

theorem convertTop_of_nodup :
    ∀ (l acc : List (String × Json)), (keysOf acc ++ keysOf l).Nodup →
    convertTop l acc = acc ++ l.map (fun p => (p.1, convertValue p.2)) := by
  intro l
  induction l with
  | nil => intro acc _; simp [convertTop]
  | cons q rest ih =>
    intro acc h
    obtain ⟨key, value⟩ := q
    have hkey : key ∉ keysOf acc := by
      simp only [keysOf, List.map_cons, List.nodup_append] at h
      intro hmem
      exact h.2.2 hmem (by simp)
    have hstep : assignKey acc key (convertValue value) =
        acc ++ [(key, convertValue value)] := assignKey_not_mem _ _ _ hkey
    rw [convertTop, hstep, ih]
    · simp
    · rw [keysOf_append]
      simp only [keysOf, List.map_cons, List.map_nil] at h ⊢
      simpa [List.append_assoc] using h

theorem convertNested_nodup :
    ∀ (l acc : List (String × Json)), (keysOf acc).Nodup →
    (keysOf (convertNested l acc)).Nodup := by
  intro l
  induction l with
  | nil => intro acc h; exact h
  | cons p rest ih =>
    intro acc h
    obtain ⟨k, v⟩ := p
    exact ih _ (nodup_assignKey _ _ _ h)

theorem convertNested_keys :
    ∀ (l acc : List (String × Json)) (k : String),
    k ∈ keysOf (convertNested l acc) →
    k ∈ keysOf acc ∨ ∃ k0, k = to_snake_case k0 := by
  intro l
  induction l with
  | nil => intro acc k hk; left; exact hk
  | cons p rest ih =>
    intro acc k hk
    obtain ⟨k1, v1⟩ := p
    rcases ih _ k hk with hacc | hex
    · rw [keysOf_assignKey] at hacc
      by_cases hmem : to_snake_case k1 ∈ keysOf acc
      · left; simpa [hmem] using hacc
      · simp only [hmem, if_false, List.mem_append, List.mem_singleton] at hacc
        rcases hacc with h1 | h2
        · left; exact h1
        · right; exact ⟨k1, h2⟩
    · right; exact hex

theorem convertNested_of_fixed :
    ∀ (l acc : List (String × Json)),
    (∀ k ∈ keysOf l, to_snake_case k = k) →
    (keysOf acc ++ keysOf l).Nodup →
    convertNested l acc = acc ++ l := by
  intro l
  induction l with
  | nil => intro acc _ _; simp [convertNested]
  | cons p rest ih =>
    intro acc hfix h
    obtain ⟨k, v⟩ := p
    have hk : to_snake_case k = k := hfix k (by simp [keysOf])
    have hkey : k ∉ keysOf acc := by
      simp only [keysOf, List.map_cons, List.nodup_append] at h
      intro hmem
      exact h.2.2 hmem (by simp)
    rw [convertNested, hk, assignKey_not_mem _ _ _ hkey, ih]
    · simp
    · intro k2 hk2
      exact hfix k2 (by simp [keysOf] at hk2 ⊢; tauto)
    · rw [keysOf_append]
      simp only [keysOf, List.map_cons, List.map_nil] at h ⊢
      simpa [List.append_assoc] using h

theorem map_convertValue_fixed :
    ∀ (l : List (String × Json)), (∀ p ∈ l, convertValue p.2 = p.2) →
    l.map (fun p => (p.1, convertValue p.2)) = l := by
  intro l
  induction l with
  | nil => intro _; rfl
  | cons p rest ih =>
    intro h
    obtain ⟨k, v⟩ := p
    simp only [List.map_cons]
    rw [h (k, v) (by simp), ih (fun q hq => h q (by simp [hq]))]

theorem sizeOf_lt_of_mem_fields {k : String} {v : Json} :
    ∀ {fields : List (String × Json)}, (k, v) ∈ fields →
    sizeOf v < sizeOf (Json.obj fields) := by
  intro fields h
  have h1 : sizeOf v < sizeOf fields := by
    induction fields with
    | nil => cases h
    | cons p rest ih =>
      rcases List.mem_cons.mp h with heq | hmem
      · rw [← heq]; simp; omega
      · have := ih hmem; simp; omega
  simp
  omega

theorem sizeOf_lt_of_mem_items {v : Json} :
    ∀ {items : List Json}, v ∈ items → sizeOf v < sizeOf (Json.arr items) := by
  intro items h
  have h1 : sizeOf v < sizeOf items := by
    induction items with
    | nil => cases h
    | cons p rest ih =>
      rcases List.mem_cons.mp h with heq | hmem
      · rw [heq]; simp; omega
      · have := ih hmem; simp; omega
  simp
  omega

theorem convertItems_idem_of (items : List Json)
    (H : ∀ item ∈ items,
      convert_keys_to_snake_case (convert_keys_to_snake_case item) =
        convert_keys_to_snake_case item) :
    convertItems (convertItems items) = convertItems items := by
  induction items with
  | nil => rfl
  | cons item rest ih =>
    have hrest := ih (fun it hit => H it (by simp [hit]))
    cases item with
    | obj fields =>
      have e2 : convert_keys_to_snake_case (Json.obj fields) =
          Json.obj (convertTop fields []) := rfl
      show convert_keys_to_snake_case (Json.obj (convertTop fields [])) ::
          convertItems (convertItems rest) =
        Json.obj (convertTop fields []) :: convertItems rest
      rw [← e2, H (Json.obj fields) (by simp), hrest]
    | null => show Json.null :: _ = Json.null :: _; rw [hrest]
    | bool b => show Json.bool b :: _ = Json.bool b :: _; rw [hrest]
    | num m => show Json.num m :: _ = Json.num m :: _; rw [hrest]
    | str s => show Json.str s :: _ = Json.str s :: _; rw [hrest]
    | arr xs => show Json.arr xs :: _ = Json.arr xs :: _; rw [hrest]

theorem convert_idem_aux : ∀ (n : Nat) (j : Json), sizeOf j ≤ n →
    (convert_keys_to_snake_case (convert_keys_to_snake_case j) =
      convert_keys_to_snake_case j) ∧
    (convertValue (convertValue j) = convertValue j) := by
  intro n
  induction n using Nat.strong_induction_on with
  | _ n ih =>
    intro j hj
    match j with
    | .null => exact ⟨rfl, rfl⟩
    | .bool b => exact ⟨rfl, rfl⟩
    | .num m => exact ⟨rfl, rfl⟩
    | .str s => exact ⟨rfl, rfl⟩
    | .arr items =>
      refine ⟨rfl, ?_⟩
      show Json.arr (convertItems (convertItems items)) =
        Json.arr (convertItems items)
      rw [convertItems_idem_of items ?_]
      intro item hmem
      have hsz : sizeOf item < sizeOf (Json.arr items) := sizeOf_lt_of_mem_items hmem
      exact (ih (sizeOf item) (lt_of_lt_of_le hsz hj) item le_rfl).1
    | .obj fields =>
      have hnodupL : (keysOf (convertTop fields [])).Nodup :=
        convertTop_nodup fields [] (by simp [keysOf])
      have hvals : ∀ p ∈ convertTop fields [], convertValue p.2 = p.2 := by
        intro p hp
        rcases convertTop_values fields [] p hp with h0 | ⟨k0, v0, hmem, hpv⟩
        · cases h0
        · rw [hpv]
          have hsz : sizeOf v0 < sizeOf (Json.obj fields) :=
            sizeOf_lt_of_mem_fields hmem
          exact (ih (sizeOf v0) (lt_of_lt_of_le hsz hj) v0 le_rfl).2
      constructor
      · show Json.obj (convertTop (convertTop fields []) []) =
          Json.obj (convertTop fields [])
        rw [convertTop_of_nodup _ [] (by simpa [keysOf] using hnodupL)]
        rw [List.nil_append, map_convertValue_fixed _ hvals]
      · show Json.obj (convertNested (convertNested fields []) []) =
          Json.obj (convertNested fields [])
        have hn : (keysOf (convertNested fields [])).Nodup :=
          convertNested_nodup fields [] (by simp [keysOf])
        have hk : ∀ k ∈ keysOf (convertNested fields []), to_snake_case k = k := by
          intro k hkmem
          rcases convertNested_keys fields [] k hkmem with h0 | ⟨k0, rfl⟩
          · simp [keysOf] at h0
          · exact to_snake_case_idem k0
        rw [convertNested_of_fixed _ [] hk (by simpa [keysOf] using hn)]
        rw [List.nil_append]

/-! ### Fixed-point lemmas for the normalizer -/

theorem snakeTopFixed_cons {k : String} {v : Json} {rest : List (String × Json)} :
    snakeTopFixed ((k, v) :: rest) = true ↔
      k ∉ keysOf rest ∧ snakeValFixed v = true ∧ snakeTopFixed rest = true := by
  simp [snakeTopFixed, Bool.and_eq_true, decide_eq_true_eq, and_assoc]

theorem snakeTopFixed_nodup :
    ∀ (l : List (String × Json)), snakeTopFixed l = true → (keysOf l).Nodup := by
  intro l
  induction l with
  | nil => intro _; simp [keysOf]
  | cons p rest ih =>
    intro h
    obtain ⟨k, v⟩ := p
    rcases snakeTopFixed_cons.mp h with ⟨h1, _, h3⟩
    simp only [keysOf, List.map_cons, List.nodup_cons]
    exact ⟨h1, ih h3⟩

theorem snakeTopFixed_values :
    ∀ (l : List (String × Json)), snakeTopFixed l = true →
    ∀ p ∈ l, snakeValFixed p.2 = true := by
  intro l
  induction l with
  | nil => intro _ p hp; cases hp
  | cons q rest ih =>
    intro h p hp
    obtain ⟨k, v⟩ := q
    rcases snakeTopFixed_cons.mp h with ⟨-, h2, h3⟩
    rcases List.mem_cons.mp hp with rfl | hmem
    · exact h2
    · exact ih h3 p hmem

theorem nestedSnakeFixed_spec :
    ∀ (l : List (String × Json)), nestedSnakeFixed l = true →
    (∀ k ∈ keysOf l, to_snake_case k = k) ∧ (keysOf l).Nodup := by
  intro l
  induction l with
  | nil =>
    intro _
    refine ⟨?_, by simp [keysOf]⟩
    intro k hk
    cases hk
  | cons p rest ih =>
    intro h
    obtain ⟨k1, v1⟩ := p
    have h' : k1 ∉ keysOf rest ∧ to_snake_case k1 = k1 ∧
        nestedSnakeFixed rest = true := by
      simpa [nestedSnakeFixed, Bool.and_eq_true, decide_eq_true_eq, and_assoc]
        using h
    rcases h' with ⟨h1, h2, h3⟩
    rcases ih h3 with ⟨ihfix, ihnodup⟩
    constructor
    · intro k hk
      simp only [keysOf, List.map_cons, List.mem_cons] at hk
      rcases hk with rfl | hmem
      · exact h2
      · exact ihfix k hmem
    · simp only [keysOf, List.map_cons, List.nodup_cons]
      exact ⟨h1, ihnodup⟩

theorem snakeItemsFixed_spec :
    ∀ (items : List Json), snakeItemsFixed items = true →
    ∀ (fields : List (String × Json)), Json.obj fields ∈ items →
    snakeTopFixed fields = true := by
  intro items
  induction items with
  | nil => intro _ fields hmem; cases hmem
  | cons item rest ih =>
    intro h fields hmem
    cases item with
    | obj f =>
      have h' : snakeTopFixed f = true ∧ snakeItemsFixed rest = true := by
        simpa [snakeItemsFixed, Bool.and_eq_true] using h
      rcases List.mem_cons.mp hmem with heq | hmem2
      · cases heq
        exact h'.1
      · exact ih h'.2 fields hmem2
    | null =>
      rcases List.mem_cons.mp hmem with heq | hmem2
      · cases heq
      · exact ih (by simpa [snakeItemsFixed] using h) fields hmem2
    | bool b =>
      rcases List.mem_cons.mp hmem with heq | hmem2
      · cases heq
      · exact ih (by simpa [snakeItemsFixed] using h) fields hmem2
    | num m =>
      rcases List.mem_cons.mp hmem with heq | hmem2
      · cases heq
      · exact ih (by simpa [snakeItemsFixed] using h) fields hmem2
    | str s =>
      rcases List.mem_cons.mp hmem with heq | hmem2
      · cases heq
      · exact ih (by simpa [snakeItemsFixed] using h) fields hmem2
    | arr xs =>
      rcases List.mem_cons.mp hmem with heq | hmem2
      · cases heq
      · exact ih (by simpa [snakeItemsFixed] using h) fields hmem2

theorem convertItems_id_of (items : List Json)
    (H : ∀ (fields : List (String × Json)), Json.obj fields ∈ items →
      convert_keys_to_snake_case (Json.obj fields) = Json.obj fields) :
    convertItems items = items := by
  induction items with
  | nil => rfl
  | cons item rest ih =>
    have hrest := ih (fun f hf => H f (by simp [hf]))
    cases item with
    | obj fields =>
      show convert_keys_to_snake_case (Json.obj fields) :: convertItems rest =
        Json.obj fields :: rest
      rw [H fields (by simp), hrest]
    | null => show Json.null :: convertItems rest = _; rw [hrest]
    | bool b => show Json.bool b :: convertItems rest = _; rw [hrest]
    | num m => show Json.num m :: convertItems rest = _; rw [hrest]
    | str s => show Json.str s :: convertItems rest = _; rw [hrest]
    | arr xs => show Json.arr xs :: convertItems rest = _; rw [hrest]

theorem convert_fixed_aux : ∀ (n : Nat) (j : Json), sizeOf j ≤ n →
    (snake_fixed j = true → convert_keys_to_snake_case j = j) ∧
    (snakeValFixed j = true → convertValue j = j) := by
  intro n
  induction n using Nat.strong_induction_on with
  | _ n ih =>
    intro j hj
    match j with
    | .null => exact ⟨fun _ => rfl, fun _ => rfl⟩
    | .bool b => exact ⟨fun _ => rfl, fun _ => rfl⟩
    | .num m => exact ⟨fun _ => rfl, fun _ => rfl⟩
    | .str s => exact ⟨fun _ => rfl, fun _ => rfl⟩
    | .arr items =>
      refine ⟨fun _ => rfl, fun h => ?_⟩
      show Json.arr (convertItems items) = Json.arr items
      rw [convertItems_id_of items ?_]
      intro fields hmem
      have hsz : sizeOf (Json.obj fields) < sizeOf (Json.arr items) :=
        sizeOf_lt_of_mem_items hmem
      exact (ih (sizeOf (Json.obj fields)) (lt_of_lt_of_le hsz hj)
        (Json.obj fields) le_rfl).1
        (snakeItemsFixed_spec items (by simpa [snakeValFixed] using h) fields hmem)
    | .obj fields =>
      constructor
      · intro h
        have htop : snakeTopFixed fields = true := by simpa [snake_fixed] using h
        show Json.obj (convertTop fields []) = Json.obj fields
        rw [convertTop_of_nodup _ []
          (by simpa [keysOf] using snakeTopFixed_nodup fields htop)]
        rw [List.nil_append, map_convertValue_fixed _ ?_]
        intro p hp
        have hsz : sizeOf p.2 < sizeOf (Json.obj fields) :=
          sizeOf_lt_of_mem_fields (by rw [show ((p.1, p.2) : String × Json) = p from rfl]; exact hp)
        exact (ih (sizeOf p.2) (lt_of_lt_of_le hsz hj) p.2 le_rfl).2
          (snakeTopFixed_values fields htop p hp)
      · intro h
        have hnested : nestedSnakeFixed fields = true := by
          simpa [snakeValFixed] using h
        show Json.obj (convertNested fields []) = Json.obj fields
        rcases nestedSnakeFixed_spec fields hnested with ⟨hfix, hnodup⟩
        rw [convertNested_of_fixed _ [] hfix (by simpa [keysOf] using hnodup),
          List.nil_append]

/-! ## Theorems for claim C9 -/

/-- C9: key normalization is idempotent — for every mapping,
`normalize(normalize(x)) == normalize(x)`; and a mapping whose nested keys (at
the levels the normalizer rewrites) are already snake_case is a fixed point of
the normalizer. -/
theorem C9_normalize_idempotent :
    (∀ data : Json,
      convert_keys_to_snake_case (convert_keys_to_snake_case data) =
        convert_keys_to_snake_case data) ∧
    (∀ data : Json, snake_fixed data = true →
      convert_keys_to_snake_case data = data) := by
  constructor
  · intro data
    exact (convert_idem_aux (sizeOf data) data le_rfl).1
  · intro data h
    exact (convert_fixed_aux (sizeOf data) data le_rfl).1 h

/-- A payload shaped like the repository's Porter responses, with PascalCase
top-level keys (which the normalizer must not touch) and snake_case nested
keys. -/
def snakeExample : Json :=
  Json.obj
    [("ThreatOfNewEntrants",
        Json.obj [("level", Json.str "High"), ("rationale", Json.str "x")]),
     ("claims", Json.arr [Json.obj [("statement", Json.str "s")]])]

/-- Witness for C9: the concrete already-snake_case payload is a fixed point
of the normalizer. -/
theorem C9_normalize_idempotent_witness :
    convert_keys_to_snake_case snakeExample = snakeExample :=
  C9_normalize_idempotent.2 snakeExample (by rfl)

/-! ## Response extractor (src/strategem/core/llm.py lines 225-252; identical
in src/strategem/llm_layer.py lines 110-142)

`_extract_json_from_markdown` first collects the candidate bodies of
``` fenced blocks with `re.findall(r"```(?:json)?\s*\n?(.*?)\n?```", text,
re.DOTALL)` and returns the first one that `json.loads` accepts (after
`.strip()`); failing that, it scans for the first `{`, tracks nested-brace
depth character by character until it returns to zero, tries `json.loads` on
that exact substring, and on parse failure advances to the next `{`.

The regex is modelled as the concrete scanner it denotes on this pattern:
a match starts at a literal ```` ``` ````, then `(?:json)?` greedily takes a
literal `json` if present, `\s*\n?` consumes the maximal whitespace run (after
a maximal `\s*` the following character is not whitespace, so `\n?` is empty),
and the lazy group ends at the earliest position followed by an optional
newline and a closing ```` ``` ````.  `re.findall` scans left to right and
resumes after each match. -/

/-- Python whitespace (the class `\s` and the default `str.strip` set). -/
def isPyWs (c : Char) : Bool :=
  c = ' ' || c = '\t' || c = '\n' || c = '\r' || c = '\x0b' || c = '\x0c'

/-- Python `str.lstrip()`. -/
def lstripChars (cs : List Char) : List Char := cs.dropWhile isPyWs

/-- Python `str.rstrip()`. -/
def rstripChars (cs : List Char) : List Char :=
  (cs.reverse.dropWhile isPyWs).reverse

/-- Python `str.strip()`. -/
def stripChars (cs : List Char) : List Char := rstripChars (lstripChars cs)

/-- Does `cs` start with `pattern`? -/
def beginsWith : List Char → List Char → Bool
  | [], _ => true
  | _ :: _, [] => false
  | p :: ps, c :: cs => p = c && beginsWith ps cs

/-- Does `cs` contain `pattern` as a contiguous subsequence?  Models Python's
`pattern in s`. -/
def containsSeq (pattern : List Char) : List Char → Bool
  | [] => beginsWith pattern []
  | cs@(_ :: rest) => beginsWith pattern cs || containsSeq pattern rest

/-- The three-backtick fence marker. -/
def tripleBacktick : List Char := ['\x60', '\x60', '\x60']

/-- The characters of the `json` fence tag. -/
def jsonTag : List Char := ['j', 's', 'o', 'n']

/-! ### A model of `json.loads`

Recursive-descent parser for JSON with integer numbers (see the file header)
and the common string escapes.  Object members are collected with Python-dict
assignment semantics (`assignKey`), matching `json.loads` duplicate-key
behaviour (last value wins, first position kept).  The fuel argument bounds
recursion depth and member counts; `json_loads` passes `2·length + 8`, which
always suffices since every recursive call consumes at least one character per
two fuel units. -/

/-- Parse the body of a JSON string after the opening quote, returning the
decoded characters and the rest after the closing quote. -/
def parseStringBody : List Char → Option (List Char × List Char)
  | [] => none
  | c :: cs =>
    if c = '"' then some ([], cs)
    else if c = '\\' then
      match cs with
      | [] => none
      | e :: cs2 =>
        let dec : Option Char :=
          if e = '"' then some '"'
          else if e = '\\' then some '\\'
          else if e = '/' then some '/'
          else if e = 'n' then some '\n'
          else if e = 't' then some '\t'
          else if e = 'r' then some '\r'
          else none
        match dec with
        | none => none
        | some d => (parseStringBody cs2).map (fun p => (d :: p.1, p.2))
    else (parseStringBody cs).map (fun p => (c :: p.1, p.2))

/-- The numeric value of a run of decimal digits. -/
def digitsToNat (ds : List Char) : Nat :=
  ds.foldl (fun n c => n * 10 + (c.toNat - 48)) 0

/-- Parse an integer JSON number (optional minus sign, one or more digits). -/
def parseNumberFrom (cs : List Char) : Option (Json × List Char) :=
  match cs with
  | '-' :: rest =>
    let ds := rest.takeWhile Char.isDigit
    if ds.isEmpty then none
    else some (Json.num (-(digitsToNat ds : Int)), rest.dropWhile Char.isDigit)
  | _ =>
    let ds := cs.takeWhile Char.isDigit
    if ds.isEmpty then none
    else some (Json.num (digitsToNat ds : Int), cs.dropWhile Char.isDigit)

mutual

/-- Parse one JSON value (leading whitespace allowed). -/
def parseValue : Nat → List Char → Option (Json × List Char)
  | 0, _ => none
  | fuel + 1, cs =>
    match cs.dropWhile isPyWs with
    | [] => none
    | c :: rest =>
      if c = '\x7b' then
        match rest.dropWhile isPyWs with
        | '\x7d' :: r2 => some (Json.obj [], r2)
        | r1 => parseMembers fuel r1 []
      else if c = '[' then
        match rest.dropWhile isPyWs with
        | ']' :: r2 => some (Json.arr [], r2)
        | r1 => parseElems fuel r1 []
      else if c = '"' then
        (parseStringBody rest).map (fun p => (Json.str ⟨p.1⟩, p.2))
      else if beginsWith ('t' :: 'r' :: 'u' :: 'e' :: []) (c :: rest) then
        some (Json.bool true, rest.drop 3)
      else if beginsWith ('f' :: 'a' :: 'l' :: 's' :: 'e' :: []) (c :: rest) then
        some (Json.bool false, rest.drop 4)
      else if beginsWith ('n' :: 'u' :: 'l' :: 'l' :: []) (c :: rest) then
        some (Json.null, rest.drop 3)
      else
        parseNumberFrom (c :: rest)

/-- Parse the members of a JSON object after the opening brace (nonempty
case), accumulating a Python dict. -/
def parseMembers : Nat → List Char → List (String × Json) →
    Option (Json × List Char)
  | 0, _, _ => none
  | fuel + 1, cs, acc =>
    match cs.dropWhile isPyWs with
    | '"' :: rest =>
      match parseStringBody rest with
      | none => none
      | some (kchars, r1) =>
        match r1.dropWhile isPyWs with
        | ':' :: r2 =>
          match parseValue fuel r2 with
          | none => none
          | some (v, r3) =>
            let acc2 := assignKey acc ⟨kchars⟩ v
            match r3.dropWhile isPyWs with
            | ',' :: r4 => parseMembers fuel r4 acc2
            | '\x7d' :: r4 => some (Json.obj acc2, r4)
            | _ => none
        | _ => none
    | _ => none

/-- Parse the elements of a JSON array after the opening bracket (nonempty
case). -/
def parseElems : Nat → List Char → List Json → Option (Json × List Char)
  | 0, _, _ => none
  | fuel + 1, cs, acc =>
    match parseValue fuel cs with
    | none => none
    | some (v, r1) =>
      match r1.dropWhile isPyWs with
      | ',' :: r2 => parseElems fuel r2 (acc ++ [v])
      | ']' :: r2 => some (Json.arr (acc ++ [v]), r2)
      | _ => none

end

/-- Model of `json.loads`: parse one value, allow trailing whitespace only. -/
def json_loads (cs : List Char) : Option Json :=
  match parseValue (2 * cs.length + 8) cs with
  | some (v, rest) => if (rest.dropWhile isPyWs).isEmpty then some v else none
  | none => none

/-! ### The fenced-block scan -/

/-- The lazy group `(.*?)\n?``` `: take the shortest prefix whose remainder
starts with an optional newline followed by a closing fence; return the group
and the rest after the fence. -/
def fenceBody : List Char → Option (List Char × List Char)
  | [] => none
  | cs@(c :: rest) =>
    if beginsWith ('\n' :: tripleBacktick) cs then some ([], cs.drop 4)
    else if beginsWith tripleBacktick cs then some ([], cs.drop 3)
    else
      match fenceBody rest with
      | some p => some (c :: p.1, p.2)
      | none => none

/-- Attempt the fence pattern at the start of `cs`: a literal fence, a greedy
optional `json` tag, the maximal whitespace run, then the lazy body. -/
def matchFence (cs : List Char) : Option (List Char × List Char) :=
  if beginsWith tripleBacktick cs then
    let r1 := cs.drop 3
    let r2 := if beginsWith jsonTag r1 then r1.drop 4 else r1
    fenceBody (r2.dropWhile isPyWs)
  else
    none

/-- `re.findall` on the fence pattern: scan left to right, resuming after each
match.  Every successful match consumes at least six characters and every
failure advances one character, so fuel equal to the text length is exact. -/
def fencedFindAll : Nat → List Char → List (List Char)
  | 0, _ => []
  | _ + 1, [] => []
  | fuel + 1, cs@(_ :: rest) =>
    match matchFence cs with
    | some p => p.1 :: fencedFindAll fuel p.2
    | none => fencedFindAll fuel rest

/-- The `for match in matches: try: return json.loads(match.strip())` loop:
first parseable block wins. -/
def firstParsedBlock : List (List Char) → Option Json
  | [] => none
  | m :: ms =>
    match json_loads (stripChars m) with
    | some v => some v
    | none => firstParsedBlock ms

/-! ### The brace-matched scan -/

/-- The inner `for i in range(start, len(text))` loop: starting from a `{`,
track nested-brace depth and return the prefix ending where the count first
returns to zero. -/
def braceTake : List Char → Int → Option (List Char)
  | [], _ => none
  | c :: rest, count =>
    if c = '\x7b' then (braceTake rest (count + 1)).map (fun t => c :: t)
    else if c = '\x7d' then
      if count - 1 = 0 then some [c]
      else (braceTake rest (count - 1)).map (fun t => c :: t)
    else (braceTake rest count).map (fun t => c :: t)

/-- The outer `while start != -1` loop: at each `{`, parse the brace-balanced
candidate; on failure (or if the depth never returns to zero) advance to the
next `{`. -/
def braceScan : List Char → Option Json
  | [] => none
  | c :: rest =>
    if c = '\x7b' then
      match braceTake (c :: rest) 0 with
      | some cand =>
        match json_loads cand with
        | some v => some v
        | none => braceScan rest
      | none => braceScan rest
    else braceScan rest

/-- `_extract_json_from_markdown` from `src/strategem/core/llm.py` lines
225-252: fenced blocks first (first parseable block wins), then the
brace-matched scan, else `None`. -/
def extract_json_from_markdown (text : List Char) : Option Json :=
  match firstParsedBlock (fencedFindAll text.length text) with
  | some v => some v
  | none => braceScan text

/-- Are the raw `{` and `}` characters of the text balanced in number?  This
is the reading of "balanced braces" under which the brace scan's counter ends
at zero. -/
def bracesBalanced (cs : List Char) : Bool :=
  cs.count '\x7b' = cs.count '\x7d'

/-- The characters of a fence opening a json-tagged block: ```` ```json ````
followed by a newline. -/
def fenceOpenJson : List Char := tripleBacktick ++ jsonTag ++ ['\n']

/-- The characters closing a fenced block: a newline followed by
```` ``` ````. -/
def fenceCloseMark : List Char := '\n' :: tripleBacktick

/-! ### Lemmas about the fenced scan -/

theorem matchFence_cons_ne {c : Char} {cs : List Char} (h : c ≠ '\x60') :
    matchFence (c :: cs) = none := by
  simp [matchFence, tripleBacktick, beginsWith, Ne.symm h]

theorem fencedFindAll_skip :
    ∀ (pre : List Char), (∀ c ∈ pre, c ≠ '\x60') →
    ∀ (fuel : Nat) (T : List Char),
    fencedFindAll (pre.length + fuel) (pre ++ T) = fencedFindAll fuel T := by
  intro pre
  induction pre with
  | nil => intro _ fuel T; simp
  | cons c pre2 ih =>
    intro h fuel T
    have hc : c ≠ '\x60' := h c (by simp)
    have harith : (c :: pre2).length + fuel = (pre2.length + fuel) + 1 := by
      simp; omega
    rw [harith]
    show fencedFindAll ((pre2.length + fuel) + 1) (c :: (pre2 ++ T)) = _
    rw [fencedFindAll, matchFence_cons_ne hc]
    exact ih (fun d hd => h d (by simp [hd])) fuel T

theorem fencedFindAll_match_head (fuel : Nat) (cs g after : List Char)
    (hf : 1 ≤ fuel) (hcs : cs ≠ []) (hm : matchFence cs = some (g, after)) :
    fencedFindAll fuel cs = g :: fencedFindAll (fuel - 1) after := by
  match fuel, cs with
  | f + 1, c :: rest =>
    rw [fencedFindAll, hm]
    rfl

theorem beginsWith_append_self :
    ∀ (p t : List Char), beginsWith p (p ++ t) = true := by
  intro p
  induction p with
  | nil => intro t; rfl
  | cons c p2 ih => intro t; simp [beginsWith, ih]

theorem fenceBody_clean :
    ∀ (u post : List Char), (∀ c ∈ u, c ≠ '\x60') →
    fenceBody (u ++ '\n' :: tripleBacktick ++ post) = some (u, post) := by
  intro u
  induction u with
  | nil =>
    intro post _
    simp [fenceBody, tripleBacktick, beginsWith]
  | cons c u2 ih =>
    intro post h
    have hc : c ≠ '\x60' := h c (by simp)
    have hcond1 :
        beginsWith ('\n' :: tripleBacktick)
          (c :: (u2 ++ '\n' :: tripleBacktick ++ post)) = false := by
      by_cases hnl : c = '\n'
      · subst hnl
        cases u2 with
        | nil => simp [beginsWith, tripleBacktick]
        | cons d u3 =>
          have hd : d ≠ '\x60' := h d (by simp)
          simp [beginsWith, tripleBacktick, Ne.symm hd]
      · simp [beginsWith, Ne.symm hnl]
    have hcond2 :
        beginsWith tripleBacktick
          (c :: (u2 ++ '\n' :: tripleBacktick ++ post)) = false := by
      simp [beginsWith, tripleBacktick, Ne.symm hc]
    show fenceBody (c :: (u2 ++ '\n' :: tripleBacktick ++ post)) = _
    rw [fenceBody, hcond1, hcond2]
    simp only [Bool.false_eq_true, if_false]
    rw [ih post (fun d hd => h d (by simp [hd]))]

theorem dropWhile_idem (p : Char → Bool) :
    ∀ (l : List Char), (l.dropWhile p).dropWhile p = l.dropWhile p := by
  intro l
  induction l with
  | nil => rfl
  | cons c rest ih =>
    by_cases hp : p c = true
    · simp [List.dropWhile_cons, hp, ih]
    · simp [List.dropWhile_cons, hp]

theorem stripChars_lstrip (j : List Char) :
    stripChars (lstripChars j) = stripChars j := by
  unfold stripChars lstripChars
  rw [dropWhile_idem]

theorem json_loads_nil : json_loads [] = none := rfl

theorem lstrip_ne_nil_of_parse {j : List Char} {v : Json}
    (h : json_loads (stripChars j) = some v) : lstripChars j ≠ [] := by
  intro hnil
  rw [show stripChars j = rstripChars (lstripChars j) from rfl, hnil] at h
  exact Option.noConfusion (json_loads_nil ▸ h)

theorem matchFence_fence (j post : List Char)
    (hj : ∀ c ∈ j, c ≠ '\x60') (hne : lstripChars j ≠ []) :
    matchFence (fenceOpenJson ++ j ++ fenceCloseMark ++ post) =
      some (lstripChars j, post) := by
  have hshape : fenceOpenJson ++ j ++ fenceCloseMark ++ post =
      '\x60' :: '\x60' :: '\x60' :: 'j' :: 's' :: 'o' :: 'n' :: '\n' ::
        (j ++ ('\n' :: (tripleBacktick ++ post))) := by
    simp [fenceOpenJson, fenceCloseMark, jsonTag, tripleBacktick]
  rw [hshape]
  show fenceBody ((j ++ ('\n' :: (tripleBacktick ++ post))).dropWhile isPyWs) =
    some (lstripChars j, post)
  rw [List.dropWhile_append,
    if_neg (by simpa [lstripChars, List.isEmpty_iff] using hne)]
  have hsub : ∀ c ∈ j.dropWhile isPyWs, c ≠ '\x60' :=
    fun c hc => hj c (List.dropWhile_subset isPyWs hc)
  have hbody := fenceBody_clean (j.dropWhile isPyWs) post hsub
  simpa [lstripChars, List.append_assoc] using hbody

/-! ### Lemmas about the brace-matched scan -/

theorem fencedFindAll_nil_of_no_fence :
    ∀ (fuel : Nat) (cs : List Char),
    containsSeq tripleBacktick cs = false → fencedFindAll fuel cs = [] := by
  intro fuel
  induction fuel with
  | zero => intro cs _; rfl
  | succ f ih =>
    intro cs h
    cases cs with
    | nil => rfl
    | cons c rest =>
      rw [containsSeq, Bool.or_eq_false_iff] at h
      rw [fencedFindAll, matchFence, if_neg (by simp [h.1])]
      exact ih rest h.2

theorem braceScan_skip :
    ∀ (pre : List Char), (∀ c ∈ pre, c ≠ '\x7b') →
    ∀ (T : List Char), braceScan (pre ++ T) = braceScan T := by
  intro pre
  induction pre with
  | nil => intro _ T; rfl
  | cons c pre2 ih =>
    intro h T
    have hc : c ≠ '\x7b' := h c (by simp)
    show braceScan (c :: (pre2 ++ T)) = braceScan T
    rw [braceScan, if_neg hc]
    exact ih (fun d hd => h d (by simp [hd])) T

theorem braceTake_append :
    ∀ (cs : List Char) (n : Int) (t : List Char), braceTake cs n = some t →
    ∀ (post : List Char), braceTake (cs ++ post) n = some t := by
  intro cs
  induction cs with
  | nil => intro n t h; cases h
  | cons c rest ih =>
    intro n t h post
    by_cases hob : c = '\x7b'
    · rw [braceTake, if_pos hob] at h
      rcases Option.map_eq_some'.mp h with ⟨t2, ht2, rfl⟩
      show braceTake (c :: (rest ++ post)) n = _
      rw [braceTake, if_pos hob, ih (n + 1) t2 ht2 post]
      rfl
    · by_cases hcb : c = '\x7d'
      · by_cases hz : n - 1 = 0
        · rw [braceTake, if_neg hob, if_pos hcb, if_pos hz] at h
          show braceTake (c :: (rest ++ post)) n = _
          rw [braceTake, if_neg hob, if_pos hcb, if_pos hz]
          exact h
        · rw [braceTake, if_neg hob, if_pos hcb, if_neg hz] at h
          rcases Option.map_eq_some'.mp h with ⟨t2, ht2, rfl⟩
          show braceTake (c :: (rest ++ post)) n = _
          rw [braceTake, if_neg hob, if_pos hcb, if_neg hz,
            ih (n - 1) t2 ht2 post]
          rfl
      · rw [braceTake, if_neg hob, if_neg hcb] at h
        rcases Option.map_eq_some'.mp h with ⟨t2, ht2, rfl⟩
        show braceTake (c :: (rest ++ post)) n = _
        rw [braceTake, if_neg hob, if_neg hcb, ih n t2 ht2 post]
        rfl

/-! ## Theorems for claim C7 -/

/-- C7 counterexample: a raw text whose single well-formed fenced JSON object
is `{"a": 1}`, but whose surrounding prose contains a stray ```` ``` ```` and a
brace-balanced fragment `{"b": 9}`.  The stray fence shifts the regex's
non-overlapping matches so no fenced candidate parses, and the brace scan then
returns the prose fragment — not the fenced object's content. -/
theorem C7_counterexample :
    json_loads (stripChars ("\x7b\"a\": 1\x7d").data) =
      some (Json.obj [("a", Json.num 1)]) ∧
    extract_json_from_markdown
      (("``` note\nsee \x7b\"b\": 9\x7d ok\n").data ++ fenceOpenJson ++
        ("\x7b\"a\": 1\x7d").data ++ fenceCloseMark ++ []) =
      some (Json.obj [("b", Json.num 9)]) ∧
    (Json.obj [("b", Json.num 9)] : Json) ≠ Json.obj [("a", Json.num 1)] := by
  refine ⟨by decide, by decide, by decide⟩

/-- C7 (amended): for every raw text containing a single well-formed fenced
JSON object — written `pre ++ "```json\n" ++ j ++ "\n```" ++ post` — the
extractor returns exactly that object's parsed content, regardless of the
surrounding prose, provided the prose before the block and the JSON body
contain no backtick character (the text after the closing fence is
unrestricted). -/
theorem C7_fenced_extraction (pre j post : List Char) (v : Json)
    (hpre : ∀ c ∈ pre, c ≠ '\x60') (hj : ∀ c ∈ j, c ≠ '\x60')
    (hparse : json_loads (stripChars j) = some v) :
    extract_json_from_markdown
      (pre ++ fenceOpenJson ++ j ++ fenceCloseMark ++ post) = some v := by
  have hne : lstripChars j ≠ [] := lstrip_ne_nil_of_parse hparse
  have hmatch := matchFence_fence j post hj hne
  have hT : pre ++ fenceOpenJson ++ j ++ fenceCloseMark ++ post =
      pre ++ (fenceOpenJson ++ j ++ fenceCloseMark ++ post) := by
    simp [List.append_assoc]
  have hlen : (pre ++ (fenceOpenJson ++ j ++ fenceCloseMark ++ post)).length =
      pre.length + (fenceOpenJson ++ j ++ fenceCloseMark ++ post).length := by
    simp
  have hTne : fenceOpenJson ++ j ++ fenceCloseMark ++ post ≠ [] := by
    simp [fenceOpenJson, tripleBacktick, jsonTag]
  have hTfuel : 1 ≤ (fenceOpenJson ++ j ++ fenceCloseMark ++ post).length := by
    simp [fenceOpenJson, tripleBacktick, jsonTag]
  rw [extract_json_from_markdown, hT, hlen,
    fencedFindAll_skip pre hpre _ _,
    fencedFindAll_match_head _ _ _ _ hTfuel hTne hmatch]
  rw [firstParsedBlock, stripChars_lstrip, hparse]

/-- Witness for C7: a concrete fenced response with backtick-free prose. -/
theorem C7_fenced_extraction_witness :
    extract_json_from_markdown
      (("Model output follows.\n").data ++ fenceOpenJson ++
        ("\x7b\"a\": 1\x7d").data ++ fenceCloseMark ++ ("\nDone.").data) =
      some (Json.obj [("a", Json.num 1)]) :=
  C7_fenced_extraction ("Model output follows.\n").data ("\x7b\"a\": 1\x7d").data
    ("\nDone.").data (Json.obj [("a", Json.num 1)])
    (by decide) (by decide) (by decide)

/-! ## Theorems for claim C8 -/

/-- C8 counterexample: the object `{"a": "}{"}` is embedded without fence
markers and its raw braces are balanced in number, yet the brace-matching
strategy recovers nothing: the depth counter returns to zero at the `}` inside
the string literal, the truncated candidate fails to parse, and every retry
from a later `{` also fails, so the extractor returns `None` instead of the
object's parsed content. -/
theorem C8_counterexample :
    containsSeq tripleBacktick
      (("x ").data ++ ("\x7b\"a\": \"\x7d\x7b\"\x7d").data ++ (" y").data) = false ∧
    bracesBalanced ("\x7b\"a\": \"\x7d\x7b\"\x7d").data = true ∧
    json_loads ("\x7b\"a\": \"\x7d\x7b\"\x7d").data =
      some (Json.obj [("a", Json.str "\x7d\x7b")]) ∧
    extract_json_from_markdown
      (("x ").data ++ ("\x7b\"a\": \"\x7d\x7b\"\x7d").data ++ (" y").data) = none := by
  refine ⟨by decide, by decide, by decide, by decide⟩

/-- C8 (amended): for every raw text `pre ++ obj ++ post` in which a JSON
object `obj` is embedded without fence markers, where the prose before it
contains no `{`, the object starts with `{`, and the brace-depth scan over the
object first returns to zero exactly at its final character (which holds
whenever its raw braces balance and no string literal contains a brace), the
brace-matching strategy recovers exactly that object: the extractor returns
its parsed content. -/
theorem C8_brace_recovery (pre obj post : List Char) (v : Json)
    (hfence : containsSeq tripleBacktick (pre ++ obj ++ post) = false)
    (hpre : ∀ c ∈ pre, c ≠ '\x7b')
    (hhead : obj.head? = some '\x7b')
    (hscan : braceTake obj 0 = some obj)
    (hparse : json_loads obj = some v) :
    extract_json_from_markdown (pre ++ obj ++ post) = some v := by
  obtain ⟨objRest, rfl⟩ : ∃ r, obj = '\x7b' :: r := by
    cases obj with
    | nil => cases hhead
    | cons c r =>
      refine ⟨r, ?_⟩
      simp only [List.head?_cons, Option.some_inj] at hhead
      rw [hhead]
  rw [extract_json_from_markdown,
    fencedFindAll_nil_of_no_fence _ _ hfence]
  show braceScan (pre ++ '\x7b' :: objRest ++ post) = some v
  have hassoc : pre ++ '\x7b' :: objRest ++ post =
      pre ++ ('\x7b' :: (objRest ++ post)) := by
    simp
  rw [hassoc, braceScan_skip pre hpre]
  rw [braceScan, if_pos rfl]
  have htake : braceTake ('\x7b' :: (objRest ++ post)) 0 =
      some ('\x7b' :: objRest) := by
    have := braceTake_append ('\x7b' :: objRest) 0 ('\x7b' :: objRest) hscan post
    simpa using this
  rw [htake]
  simp only [hparse]

/-- Witness for C8: the specification's own example text. -/
theorem C8_brace_recovery_witness :
    extract_json_from_markdown
      (("Here is the result: ").data ++
        ("\x7b\"a\": 1, \"b\": \x7b\"c\": 2\x7d\x7d").data ++
        (" Thanks.").data) =
      some (Json.obj [("a", Json.num 1), ("b", Json.obj [("c", Json.num 2)])]) :=
  C8_brace_recovery ("Here is the result: ").data
    ("\x7b\"a\": 1, \"b\": \x7b\"c\": 2\x7d\x7d").data (" Thanks.").data
    (Json.obj [("a", Json.num 1), ("b", Json.obj [("c", Json.num 2)])])
    (by decide) (by decide) (by decide) (by decide) (by decide)

/-! ## Custom indentation-based YAML-like fallback
(src/strategem/core/llm.py lines 306-391, `_yaml_to_dict`)

The function builds a dict whose values are strings or one-level dicts whose
values are strings or lists of item strings.  The outer `while` loop walks the
lines; a zero-indent `key:` line opens a section and an inner loop (`j`)
consumes its block, after which the outer index resumes at the line the inner
loop stopped on (`i = j - 1; i += 1`).  The inner loop's nested list blocks
are read ahead by a third loop (`k`) but the inner loop itself still advances
one line at a time over them.  The outer loop is modelled with fuel equal to
the number of lines: every iteration consumes at least one line (the inner
loop only ever returns a suffix of its input), so the zero-fuel branch is
unreachable from `yaml_to_dict`. -/

/-- A value inside a section: a string or a list of bullet items. -/
inductive YVal
  | s (v : String)
  | lst (items : List String)
deriving DecidableEq

/-- A top-level value: a string or a section. -/
inductive YTop
  | s (v : String)
  | sec (kvs : List (String × YVal))
deriving DecidableEq

/-- Python `text.split("\n")`. -/
def splitLines : List Char → List (List Char)
  | [] => [[]]
  | '\n' :: rest => [] :: splitLines rest
  | c :: rest =>
    match splitLines rest with
    | l :: ls => (c :: l) :: ls
    | [] => [[c]]

/-- `len(line) - len(line.lstrip())`: the number of leading whitespace
characters. -/
def lineIndent (l : List Char) : Nat :=
  l.length - (l.dropWhile isPyWs).length

/-- The `k` loop of `_yaml_to_dict` (lines 359-382): collect `- item` bullets
under a nested key of indentation `nextIndent`, skipping blank lines, and stop
at the first non-blank line of indentation `≤ nextIndent` that is not itself a
list item. -/
def collectListItems (nextIndent : Nat) : List (List Char) → List String
  | [] => []
  | l :: rest =>
    let stripped := stripChars l
    if stripped.isEmpty then collectListItems nextIndent rest
    else if lineIndent l ≤ nextIndent ∧ beginsWith ['-'] stripped = false then []
    else if beginsWith ['-'] stripped then
      let item := stripChars (stripped.drop 1)
      if item.isEmpty then collectListItems nextIndent rest
      else (⟨item⟩ : String) :: collectListItems nextIndent rest
    else collectListItems nextIndent rest

/-- The `j` loop of `_yaml_to_dict` (lines 334-384): consume the block under a
zero-indent section header, returning the accumulated section dict and the
suffix of lines at which the loop stopped (the outer loop resumes exactly
there).  Blank lines are skipped; any non-blank line of indentation `≤` the
header's ends the block; a deeper line containing `:` becomes a key/value
entry (or, with an empty value, a list header whose items are read ahead by
`collectListItems`); any other line is passed over. -/
def sectionLoop (indent : Nat) :
    List (String × YVal) → List (List Char) →
    List (String × YVal) × List (List Char)
  | kvs, [] => (kvs, [])
  | kvs, l :: rest =>
    let stripped := stripChars l
    if stripped.isEmpty then sectionLoop indent kvs rest
    else if lineIndent l ≤ indent then (kvs, l :: rest)
    else if stripped.contains ':' then
      let key : String := ⟨stripChars (stripped.takeWhile (fun c => c ≠ ':'))⟩
      let value := stripChars ((stripped.dropWhile (fun c => c ≠ ':')).drop 1)
      if value.isEmpty = false then
        sectionLoop indent (assignKey kvs key (YVal.s ⟨value⟩)) rest
      else
        sectionLoop indent
          (assignKey kvs key (YVal.lst (collectListItems (lineIndent l) rest))) rest
    else sectionLoop indent kvs rest

/-- Python `result[current_section][key] = value`: update the named section in
place.  The fallback arms (missing key or string-valued entry) are unreachable
from `yaml_to_dict`: `current_section` is always a key of the result and its
value is always a section (any top-level reassignment resets
`current_section` to `None` first). -/
def assignInSection (result : List (String × YTop)) (sec key : String)
    (v : YVal) : List (String × YTop) :=
  match result with
  | [] => []
  | (k, t) :: rest =>
    if k = sec then
      match t with
      | YTop.sec kvs => (k, YTop.sec (assignKey kvs key v)) :: rest
      | other => (k, other) :: rest
    else (k, t) :: assignInSection rest sec key v

/-- The outer `while` loop of `_yaml_to_dict` (lines 313-389). -/
def yamlRun : Nat → List (String × YTop) → Option String → List (List Char) →
    List (String × YTop)
  | 0, result, _, _ => result
  | _ + 1, result, _, [] => result
  | fuel + 1, result, current_section, l :: rest =>
    let stripped := stripChars l
    if stripped.isEmpty ∨ beginsWith ['#'] stripped = true then
      yamlRun fuel result current_section rest
    else if stripped.contains ':' then
      let key : String := ⟨stripChars (stripped.takeWhile (fun c => c ≠ ':'))⟩
      let value := stripChars ((stripped.dropWhile (fun c => c ≠ ':')).drop 1)
      if lineIndent l = 0 then
        if value.isEmpty = false then
          yamlRun fuel (assignKey result key (YTop.s ⟨value⟩)) none rest
        else
          let sl := sectionLoop 0 [] rest
          yamlRun fuel (assignKey result key (YTop.sec sl.1)) (some key) sl.2
      else
        match current_section with
        | some sec =>
          if value.isEmpty = false then
            yamlRun fuel (assignInSection result sec key (YVal.s ⟨value⟩))
              current_section rest
          else
            yamlRun fuel result current_section rest
        | none => yamlRun fuel result current_section rest
    else
      yamlRun fuel result current_section rest

/-- `_yaml_to_dict` from `src/strategem/core/llm.py` lines 306-391. -/
def yaml_to_dict (text : String) : List (String × YTop) :=
  let lines := splitLines text.data
  yamlRun lines.length [] none lines

/-! ## Theorems for claim C10 -/

/-- C10 counterexample: `#` comment lines are not skipped inside a nested
block — `"sec:\n  # note: hi"` yields the entry `"# note" ↦ "hi"` where
skipping would yield an empty section — and the nested block of `"sec:"`
terminates at the zero-indent list item `"- x"` even though it is a list item,
so the following `items:` sub-list is lost. -/
theorem C10_counterexample :
    yaml_to_dict "sec:\n  # note: hi" =
      [("sec", YTop.sec [("# note", YVal.s "hi")])] ∧
    yaml_to_dict "sec:" = [("sec", YTop.sec [])] ∧
    yaml_to_dict "sec:\n- x\n  items:\n    - a" = [("sec", YTop.sec [])] := by
  refine ⟨by decide, by decide, by decide⟩

/-- C10 (amended): blank lines are skipped without effect everywhere, but `#`
comment lines are skipped only at the top level of `_yaml_to_dict`; inside a
section block a comment line at deeper indentation containing `:` is consumed
as an ordinary key/value entry.  A section block terminates at every non-blank
line of indentation `≤` the section header's, whether or not it is a list
item; only the inner list loop has the list-item exception: a list block under
a nested key terminates exactly at a non-blank line of indentation `≤` the
nested key's that is not a list item, while list items are collected
regardless of their indentation. -/
theorem C10_yaml_block_rules :
    (∀ (fuel : Nat) (result : List (String × YTop)) (cur : Option String)
        (l : List Char) (rest : List (List Char)),
      stripChars l = [] ∨ beginsWith ['#'] (stripChars l) = true →
      yamlRun (fuel + 1) result cur (l :: rest) = yamlRun fuel result cur rest) ∧
    (∀ (ind : Nat) (kvs : List (String × YVal)) (l : List Char)
        (rest : List (List Char)),
      stripChars l = [] →
      sectionLoop ind kvs (l :: rest) = sectionLoop ind kvs rest) ∧
    (∀ (ind : Nat) (kvs : List (String × YVal)) (l : List Char)
        (rest : List (List Char)),
      stripChars l ≠ [] → lineIndent l ≤ ind →
      sectionLoop ind kvs (l :: rest) = (kvs, l :: rest)) ∧
    (∀ (ni : Nat) (l : List Char) (rest : List (List Char)),
      stripChars l = [] →
      collectListItems ni (l :: rest) = collectListItems ni rest) ∧
    (∀ (ni : Nat) (l : List Char) (rest : List (List Char)),
      stripChars l ≠ [] → lineIndent l ≤ ni →
      beginsWith ['-'] (stripChars l) = false →
      collectListItems ni (l :: rest) = []) ∧
    (∀ (ni : Nat) (l : List Char) (rest : List (List Char)),
      beginsWith ['-'] (stripChars l) = true →
      stripChars ((stripChars l).drop 1) ≠ [] →
      collectListItems ni (l :: rest) =
        (⟨stripChars ((stripChars l).drop 1)⟩ : String) ::
          collectListItems ni rest) ∧
    (∀ (ind : Nat) (kvs : List (String × YVal)) (l : List Char)
        (rest : List (List Char)),
      beginsWith ['#'] (stripChars l) = true →
      ind < lineIndent l → (stripChars l).contains ':' = true →
      stripChars (((stripChars l).dropWhile (fun c => c ≠ ':')).drop 1) ≠ [] →
      sectionLoop ind kvs (l :: rest) =
        sectionLoop ind
          (assignKey kvs
            (⟨stripChars ((stripChars l).takeWhile (fun c => c ≠ ':'))⟩ : String)
            (YVal.s
              ⟨stripChars (((stripChars l).dropWhile (fun c => c ≠ ':')).drop 1)⟩))
          rest) := by
  refine ⟨?_, ?_, ?_, ?_, ?_, ?_, ?_⟩
  · intro fuel result cur l rest h
    rw [yamlRun, if_pos ?_]
    rcases h with h | h
    · left
      simp [h]
    · right
      exact h
  · intro ind kvs l rest h
    rw [sectionLoop, if_pos (by simp [h])]
  · intro ind kvs l rest h1 h2
    rw [sectionLoop, if_neg (by simpa [List.isEmpty_iff] using h1), if_pos h2]
  · intro ni l rest h
    rw [collectListItems, if_pos (by simp [h])]
  · intro ni l rest h1 h2 h3
    rw [collectListItems, if_neg (by simp [List.isEmpty_iff]; exact h1),
      if_pos ⟨h2, h3⟩]
  · intro ni l rest h1 h2
    have hne : stripChars l ≠ [] := by
      intro hcontr
      rw [hcontr] at h1
      cases h1
    rw [collectListItems, if_neg (by simp [List.isEmpty_iff]; exact hne),
      if_neg (by rintro ⟨-, hcontr⟩; rw [h1] at hcontr; cases hcontr),
      if_pos h1, if_neg (by simpa [List.isEmpty_iff] using h2)]
  · intro ind kvs l rest h1 h2 h3 h4
    have hne : stripChars l ≠ [] := by
      intro hcontr
      rw [hcontr] at h1
      cases h1
    rw [sectionLoop, if_neg (by simp [List.isEmpty_iff]; exact hne),
      if_neg (by omega), if_pos h3,
      if_pos (show (stripChars (((stripChars l).dropWhile
          (fun c => c ≠ ':')).drop 1)).isEmpty = false by
        cases hv : (stripChars (((stripChars l).dropWhile
            (fun c => c ≠ ':')).drop 1)).isEmpty
        · rfl
        · exact absurd (List.isEmpty_iff.mp hv) h4)]

/-- Witness for C10: concrete instances of the block-termination rules — the
section block above stops at a zero-indent list item, and the list block stops
at a non-list-item line of equal indentation. -/
theorem C10_yaml_block_rules_witness :
    sectionLoop 0 [] (("- x").data :: [("  a: 1").data]) =
      ([], ("- x").data :: [("  a: 1").data]) ∧
    collectListItems 2 [("  next: 1").data] = [] ∧
    yamlRun 2 [] none (("# c").data :: [[]]) = yamlRun 1 [] none [[]] := by
  refine ⟨?_, ?_, ?_⟩
  · exact C10_yaml_block_rules.2.2.1 0 [] ("- x").data [("  a: 1").data]
      (by decide) (by decide)
  · exact C10_yaml_block_rules.2.2.2.2.1 2 ("  next: 1").data []
      (by decide) (by decide) (by decide)
  · exact C10_yaml_block_rules.1 1 [] none ("# c").data [[]] (by decide)

end Strategem
